import Mathlib

/-!
Verification of the RPBluetooth face-access controller against its
specification.  The Python modules under src/ are shallowly embedded:
pure functions become Lean functions, the mutable object state of each
component becomes an explicit state record that every operation threads,
wall-clock reads become an explicit `now` argument, and the external
library primitives (HMAC-SHA-256, SHA-256, base64 decoding) become
function parameters, since their implementations live outside the
repository.  Timestamps and similarity scores are modelled exactly
(rationals / reals) instead of by IEEE floats.
-/

/-! ## JSON command values  (src/ble_server.py works on parsed JSON dicts) -/

/-- A flat JSON value as it appears in a parsed BLE command dictionary.
Commands in this protocol are flat objects of strings, integers,
booleans and null, so nested arrays/objects are not modelled. -/
inductive JVal
  | jstr (s : String)
  | jnum (n : ℤ)
  | jbool (b : Bool)
  | jnull
  deriving DecidableEq, Repr

/-- Python truthiness of `dict.get(key)`: `None` (absent key or JSON null),
the empty string, `0` and `False` are falsy. -/
def jtruthy : Option JVal → Bool
  | none => false
  | some (.jstr s) => decide (s ≠ "")
  | some (.jnum n) => decide (n ≠ 0)
  | some (.jbool b) => b
  | some .jnull => false

/-- A parsed command dictionary.  JSON objects have unique keys, so an
association list looked up from the front is an exact model. -/
def Command : Type := List (String × JVal)

/-- Model of `command.get(key)` on a parsed JSON dict. -/
def getJ (cmd : Command) (k : String) : Option JVal :=
  (List.find? (fun p => p.1 = k) cmd).map (fun p => p.2)

/-! ## Access controller  (src/access_control.py, class AccessController)

Reasons are modelled as an enumeration; each constructor stands for the
corresponding literal (possibly number-interpolated) reason string of the
source.  `rateLimitTagged r` stands for the source string
"Rate limit: " followed by the inner reason, as built in
process_access_attempt. -/

/-- Reason strings of access_control.py, as an enumeration. -/
inductive Reason
  | accessPeriodValid
  | notYetValid
  | expired
  | employeeActive
  | employeeDeactivated
  | cooldownActive
  | rateLimitExceeded
  | rateLimitOk
  | noLockout
  | recentlyGranted
  | faceNotRecognized
  | lowSimilarity
  | accessGranted
  | rateLimitTagged (r : Reason)
  deriving DecidableEq, Repr

/-- An employee row as returned by Database.get_employee.  The ISO-8601
access period strings are modelled by their parsed instants (rationals,
seconds since the epoch); is_active holds the SQL integer as a Bool. -/
structure EmployeeRow where
  employee_id : String
  display_name : Option String
  access_start : ℚ
  access_end : ℚ
  is_active : Bool
  created_at : ℚ
  updated_at : ℚ
  deriving DecidableEq, Repr

/-- Constructor arguments of AccessController. -/
structure ACConfig where
  max_attempts_per_minute : ℕ
  cooldown_sec : ℚ
  granted_lockout_sec : ℚ
  deriving DecidableEq, Repr

/-- Mutable state of an AccessController instance.
attempt_timestamps is a defaultdict(list); last_granted_time is read
through .get(id, 0.0), so it is modelled as a total function that is
0 where no grant was recorded. -/
structure ACState where
  attempt_timestamps : String → List ℚ
  last_attempt_time : ℚ
  last_granted_time : String → ℚ

/-- The freshly constructed AccessController state. -/
def ACState.init : ACState :=
  { attempt_timestamps := fun _ => []
    last_attempt_time := 0
    last_granted_time := fun _ => 0 }

/-- AccessController.check_access_period (timestamps already parsed, so
the except branch of the source cannot fire in the model). -/
def check_access_period (e : EmployeeRow) (now : ℚ) : Bool × Reason :=
  if now < e.access_start then (false, .notYetValid)
  else if e.access_end < now then (false, .expired)
  else (true, .accessPeriodValid)

/-- AccessController.check_employee_active. -/
def check_employee_active (e : EmployeeRow) : Bool × Reason :=
  if e.is_active then (true, .employeeActive) else (false, .employeeDeactivated)

/-- AccessController.validate_access: active flag first, then period. -/
def validate_access (e : EmployeeRow) (now : ℚ) : Bool × Reason :=
  let a := check_employee_active e
  if a.1 then
    let p := check_access_period e now
    if p.1 then (true, .accessGranted) else (false, p.2)
  else (false, a.2)

/-- AccessController.check_rate_limit.  `eid` mirrors the optional
employee_id argument; Python tests it for truthiness, so an empty string
behaves like None.  Note that pruning of old timestamps is stored even
when the count check then rejects, exactly as in the source. -/
def check_rate_limit (cfg : ACConfig) (st : ACState) (now : ℚ)
    (eid : Option String) : Bool × Reason × ACState :=
  if now - st.last_attempt_time < cfg.cooldown_sec then
    (false, .cooldownActive, st)
  else
    match eid with
    | some s =>
      if s = "" then (true, .rateLimitOk, { st with last_attempt_time := now })
      else
        let pruned := (st.attempt_timestamps s).filter (fun t => now - 60 < t)
        if cfg.max_attempts_per_minute ≤ pruned.length then
          (false, .rateLimitExceeded,
            { st with attempt_timestamps := fun k => if k = s then pruned else st.attempt_timestamps k })
        else
          (true, .rateLimitOk,
            { st with
                attempt_timestamps := fun k => if k = s then pruned ++ [now] else st.attempt_timestamps k
                last_attempt_time := now })
    | none => (true, .rateLimitOk, { st with last_attempt_time := now })

/-- AccessController.check_granted_lockout. -/
def check_granted_lockout (cfg : ACConfig) (st : ACState) (now : ℚ)
    (eid : String) : Bool × Reason :=
  if now - st.last_granted_time eid < cfg.granted_lockout_sec then
    (false, .recentlyGranted)
  else (true, .noLockout)

/-- AccessController.record_granted_access. -/
def record_granted_access (st : ACState) (now : ℚ) (eid : String) : ACState :=
  { st with last_granted_time := fun k => if k = eid then now else st.last_granted_time k }

/-- The metadata dict built by process_access_attempt; the outer Option
on display_name records whether the key was added at all. -/
structure Metadata where
  similarity_score : ℚ
  similarity_threshold : ℚ
  employee_id : Option String
  display_name : Option (Option String)
  deriving DecidableEq, Repr

/-- AccessController.process_access_attempt: recognition and threshold
short-circuits, then grant-lockout, rate-limit, active flag and time
window in the fixed source order, recording the grant on full success. -/
def process_access_attempt (cfg : ACConfig) (st : ACState) (now : ℚ)
    (emp : Option EmployeeRow) (score thr : ℚ) :
    Bool × Reason × Metadata × ACState :=
  let md0 : Metadata :=
    { similarity_score := score, similarity_threshold := thr
      employee_id := none, display_name := none }
  match emp with
  | none => (false, .faceNotRecognized, md0, st)
  | some e =>
    if score < thr then (false, .lowSimilarity, md0, st)
    else
      let md : Metadata :=
        { md0 with employee_id := some e.employee_id, display_name := some e.display_name }
      let lk := check_granted_lockout cfg st now e.employee_id
      if lk.1 then
        let rl := check_rate_limit cfg st now (some e.employee_id)
        if rl.1 then
          let va := validate_access e now
          if va.1 then
            (true, .accessGranted, md, record_granted_access rl.2.2 now e.employee_id)
          else (false, va.2, md, rl.2.2)
        else (false, .rateLimitTagged rl.2.1, md, rl.2.2)
      else (false, lk.2, md, st)

/-! ## Face matcher  (src/face/matcher.py, class FaceMatcher)

Vectors carry exact rational entries; the float arithmetic of numpy is
idealized as real arithmetic (dot products and norms are exact, the
norm uses the real square root). -/

/-- np.dot on equal-length vectors. -/
def dotQ (a b : List ℚ) : ℚ := (List.zipWith (fun x y => x * y) a b).sum

/-- Squared L2 norm; np.linalg.norm(v) is its square root, and the
zero-norm guard `norm == 0` is equivalent to `normSq = 0`. -/
def normSq (v : List ℚ) : ℚ := dotQ v v

/-- np.clip(x, 0.0, 1.0). -/
noncomputable def clip01 (x : ℝ) : ℝ := min (max x 0) 1

/-- FaceMatcher.cosine_similarity: 0 on a zero norm, otherwise the
clamped normalized dot product. -/
noncomputable def cosine_similarity (a b : List ℚ) : ℝ :=
  if normSq a = 0 ∨ normSq b = 0 then 0
  else clip01 (((dotQ a b : ℚ) : ℝ) / (Real.sqrt ((normSq a : ℚ) : ℝ) * Real.sqrt ((normSq b : ℚ) : ℝ)))

/-- FaceMatcher.find_best_match: fold over employees and each of their
embeddings keeping the strictly best score (ties keep the earlier
entry), then the threshold test. -/
noncomputable def find_best_match (q : List ℚ)
    (employee_embeddings : List (EmployeeRow × List (List ℚ))) (threshold : ℝ) :
    Option String × ℝ × Option String :=
  let best := employee_embeddings.foldl
    (fun acc p => p.2.foldl
      (fun a e =>
        if cosine_similarity q e > a.2.1 then
          (some p.1.employee_id, cosine_similarity q e, p.1.display_name)
        else a) acc)
    (none, (0:ℝ), none)
  if best.2.1 < threshold then (none, best.2.1, none) else best

/-- Specification helper: the stream of (employee, similarity) pairs in
the exact order the double loop of find_best_match visits them. -/
noncomputable def simPairs (q : List ℚ)
    (cands : List (EmployeeRow × List (List ℚ))) : List (EmployeeRow × ℝ) :=
  (cands.map (fun p => p.2.map (fun e => (p.1, cosine_similarity q e)))).flatten

/-- Specification helper: the running maximum that the loop maintains,
floored at its initial value 0. -/
noncomputable def maxScore (L : List (EmployeeRow × ℝ)) : ℝ :=
  (L.map Prod.snd).foldr max 0

/-- Specification helper: the per-employee score, the maximum of the
similarities of its stored vectors (0 when it has none). -/
noncomputable def empBest (q : List ℚ) (vs : List (List ℚ)) : ℝ :=
  (vs.map (cosine_similarity q)).foldr max 0

/-- The single loop step of find_best_match on a (employee, score) pair. -/
noncomputable def mStep (a : Option String × ℝ × Option String)
    (pr : EmployeeRow × ℝ) : Option String × ℝ × Option String :=
  if pr.2 > a.2.1 then (some pr.1.employee_id, pr.2, pr.1.display_name) else a

/-! ## Store  (src/db.py, class Database)

The SQLite tables become lists of rows in insertion order.  A crucial
faithfulness point: sqlite3 leaves PRAGMA foreign_keys OFF unless a
program turns it on, and Database._init_db never does, so the
`ON DELETE CASCADE` clause of the embeddings schema is inert at run
time; delete_employee therefore touches only the employees table. -/

/-- A row of the embeddings table (the blob is kept as the decoded
float vector; its exact bytes are irrelevant to the claims). -/
structure EmbeddingRow where
  id : ℕ
  employee_id : String
  embedding : List ℚ
  photo_hash : Option String
  created_at : ℚ
  deriving DecidableEq, Repr

/-- The database contents. -/
structure DBState where
  employees : List EmployeeRow
  embeddings : List EmbeddingRow
  deriving DecidableEq, Repr

/-- Database.upsert_employee: INSERT .. ON CONFLICT(employee_id) DO
UPDATE.  There is no validation of the access window anywhere in the
function; it always writes. -/
def upsert_employee (st : DBState) (now : ℚ) (employee_id : String)
    (access_start access_end : ℚ) (display_name : Option String)
    (is_active : Bool) : DBState :=
  if st.employees.any (fun r => r.employee_id = employee_id) then
    { st with
        employees := st.employees.map (fun r =>
          if r.employee_id = employee_id then
            { r with
                display_name := display_name
                access_start := access_start
                access_end := access_end
                is_active := is_active
                updated_at := now }
          else r) }
  else
    { st with
        employees := st.employees ++
          [{ employee_id := employee_id, display_name := display_name
             access_start := access_start, access_end := access_end
             is_active := is_active, created_at := now, updated_at := now }] }

/-- Database.get_employee. -/
def get_employee (st : DBState) (employee_id : String) : Option EmployeeRow :=
  st.employees.find? (fun r => r.employee_id = employee_id)

/-- Database.delete_employee.  Returns cursor.rowcount > 0 together
with the new contents.  Because foreign-key enforcement is off (see
above), the embeddings table is untouched. -/
def delete_employee (st : DBState) (employee_id : String) : Bool × DBState :=
  (st.employees.any (fun r => r.employee_id = employee_id),
    { st with employees := st.employees.filter (fun r => ¬ r.employee_id = employee_id) })

/-! ## BLE protocol  (src/ble_server.py, class BLEProtocol)

The handler object state (current session, photo accumulator, used
nonce set) is threaded explicitly.  The nonce set is modelled as the
list of accepted nonces in acceptance order; Python set semantics are
recovered by membership tests and by never appending a duplicate.  The
eviction `list(self.used_nonces)[-500:]` slices the iteration order of
a hash set, which CPython does not specify (string hashing is
randomized), so it is modelled by a parameter `trim` about which each
theorem assumes only what the claim needs.  HMAC-SHA-256 and SHA-256
are library primitives and enter as function parameters; `hf` receives
the shared secret and the canonicalized command in place of
hmac.new(secret, json.dumps(copy, sort_keys=True), sha256). -/

/-- Constructor arguments of BLEProtocol. -/
structure BLEConfig where
  shared_secret : Option String
  hmac_enabled : Bool
  max_photo_size : ℤ
  admin_mode_enabled : Bool
  deriving DecidableEq, Repr

/-- The upsert session dict created by handle_begin_upsert. -/
structure Session where
  employee_id : JVal
  display_name : Option JVal
  access_start : JVal
  access_end : JVal
  num_photos : ℤ
  photos_received : ℤ
  photos : List (List ℕ)
  deriving DecidableEq, Repr

/-- Mutable state of a BLEProtocol instance. -/
structure ProtoState where
  current_session : Option Session
  photo_buffer : List ℕ
  used_nonces : List String
  deriving DecidableEq, Repr

/-- Python truthiness of an optional string attribute such as
self.shared_secret. -/
def strOptTruthy : Option String → Bool
  | none => false
  | some s => decide (s ≠ "")

/-- Value of a nonempty all-digit character list, else none. -/
def digitsVal (l : List Char) : Option ℕ :=
  if l = [] then none
  else if l.all (fun c => c.isDigit) then
    some (l.foldl (fun a c => 10 * a + (c.toNat - 48)) 0)
  else none

/-- The fragment of Python int() that admin clients exercise: an
optional sign followed by decimal digits (Python additionally strips
whitespace and permits digit-group underscores, which cannot occur
here because the prefix stops at the first underscore). -/
def parsePyInt (s : String) : Option ℤ :=
  match s.data with
  | '-' :: rest => (digitsVal rest).map (fun n => -(n : ℤ))
  | '+' :: rest => (digitsVal rest).map (fun n => (n : ℤ))
  | l => (digitsVal l).map (fun n => (n : ℤ))

/-- The unix-seconds nonce timestamp: int(nonce.split("_")[0]), the
integer value of the prefix before the first underscore. -/
def nonceSeconds (s : String) : Option ℤ :=
  parsePyInt (String.mk (s.data.takeWhile (fun c => c ≠ '_')))

/-- The canonicalized signing input: the command dict with the hmac key
removed and keys sorted, as produced by
json.dumps(command_copy, sort_keys=True). -/
def canonicalCommand (cmd : Command) : List (String × JVal) :=
  (List.filter (fun p => decide (p.1 ≠ "hmac")) cmd).mergeSort
    (fun a b => decide (a.1 ≤ b.1))

/-- BLEProtocol.verify_hmac.  Checks run in source order: the enabled
flag, the configured secret, presence (truthiness) of signature and
nonce, nonce reuse, nonce freshness within 300 seconds, then the
constant-time digest comparison; only on success is the nonce added,
after which the set is cut back by `trim` if it exceeded 1000 entries.
A non-string nonce or signature ends in the blanket except handler of
the source and yields False with no state change, which the wildcard
match arms reproduce. -/
def verify_hmac (hf : String → List (String × JVal) → String)
    (trim : List String → List String) (cfg : BLEConfig) (st : ProtoState)
    (now : ℤ) (cmd : Command) : Bool × ProtoState :=
  if ¬ cfg.hmac_enabled then (true, st)
  else match cfg.shared_secret with
  | none => (false, st)
  | some secret =>
    if secret = "" then (false, st)
    else
      let signature := getJ cmd "hmac"
      let nonce := getJ cmd "nonce"
      if ¬ (jtruthy signature ∧ jtruthy nonce) then (false, st)
      else match nonce with
      | some (.jstr nn) =>
        if nn ∈ st.used_nonces then (false, st)
        else match nonceSeconds nn with
        | none => (false, st)
        | some ts =>
          if 300 < |now - ts| then (false, st)
          else match signature with
          | some (.jstr sg) =>
            if sg = hf secret (canonicalCommand cmd) then
              let nonces1 := st.used_nonces ++ [nn]
              (true, { st with used_nonces := if 1000 < nonces1.length then trim nonces1 else nonces1 })
            else (false, st)
          | _ => (false, st)
      | _ => (false, st)

/-- BLEProtocol.check_admin_permission. -/
def check_admin_permission (cfg : BLEConfig) : Bool := cfg.admin_mode_enabled

/-- Response message contents, one constructor per literal message of
the source (formatted values kept as constructor arguments). -/
inductive Msg
  | noActiveSession
  | missingChunkData
  | invalidBase64
  | photoSizeExceedsLimit
  | photoHashMismatch
  | adminNotEnabled
  | hmacVerificationFailed
  | missingRequiredParams
  | invalidNumPhotos
  | missingEmployeeId
  | employeeNotFound
  | pyException
  | sessionStarted (employee_id : JVal)
  | expectedPhotos (expected got : ℤ)
  | periodUpdated (employee_id : JVal)
  | employeeDeactivatedMsg (employee_id : JVal)
  | employeeDeletedMsg (employee_id : JVal)
  | unknownCommand (command_type : Option JVal)
  deriving DecidableEq, Repr

/-- Response dicts sent back over the notify characteristic, by type
field; okPhoto is the OK of the last photo chunk carrying the
photos_received / photos_total counters. -/
inductive Resp
  | ok (m : Msg)
  | err (m : Msg)
  | okPhoto (photos_received photos_total : ℤ)
  | statusResp (d : List (String × JVal))
  | employeesResp (d : List (List (String × JVal)))
  | auditLogsResp (d : List (List (String × JVal)))
  deriving DecidableEq, Repr

/-- BLEProtocol.handle_begin_upsert.  Admin gate, HMAC gate, required
parameters, num_photos bounds, then the fresh session and a cleared
photo accumulator.  num_photos of a non-integer JSON type makes the
source comparison raise into the blanket handler (pyException). -/
def handle_begin_upsert (hf : String → List (String × JVal) → String)
    (trim : List String → List String) (cfg : BLEConfig) (st : ProtoState)
    (now : ℤ) (cmd : Command) : Resp × ProtoState :=
  if ¬ check_admin_permission cfg then (.err .adminNotEnabled, st)
  else
    let v := verify_hmac hf trim cfg st now cmd
    if ¬ v.1 then (.err .hmacVerificationFailed, v.2)
    else
      let employee_id := getJ cmd "employee_id"
      let access_start := getJ cmd "access_start"
      let access_end := getJ cmd "access_end"
      if ¬ (jtruthy employee_id ∧ jtruthy access_start ∧ jtruthy access_end) then
        (.err .missingRequiredParams, v.2)
      else
        match (match getJ cmd "num_photos" with
               | none => some 1
               | some (.jnum n) => some n
               | some _ => none) with
        | none => (.err .pyException, v.2)
        | some n =>
          if n < 1 ∨ 5 < n then (.err .invalidNumPhotos, v.2)
          else
            let sess : Session :=
              { employee_id := (getJ cmd "employee_id").getD .jnull
                display_name := getJ cmd "display_name"
                access_start := (getJ cmd "access_start").getD .jnull
                access_end := (getJ cmd "access_end").getD .jnull
                num_photos := n, photos_received := 0, photos := [] }
            (.ok (.sessionStarted sess.employee_id),
              { v.2 with current_session := some sess, photo_buffer := [] })

/-- BLEProtocol.handle_photo_chunk.  `b64` models base64.b64decode (a
failure takes the inner except branch, leaving the buffer); the size
limit and the hash check clear only the accumulator; an accepted final
chunk moves the accumulator into the session.  Intermediate chunks
return no notification (none). -/
def handle_photo_chunk (b64 : String → Option (List ℕ))
    (sha : List ℕ → String) (cfg : BLEConfig) (st : ProtoState)
    (cmd : Command) : Option Resp × ProtoState :=
  match st.current_session with
  | none => (some (.err .noActiveSession), st)
  | some sess =>
    let chunk_data := getJ cmd "data"
    if ¬ jtruthy chunk_data then (some (.err .missingChunkData), st)
    else match chunk_data with
    | some (.jstr ds) =>
      match b64 ds with
      | none => (some (.err .invalidBase64), st)
      | some chunk_bytes =>
        if cfg.max_photo_size < (st.photo_buffer.length : ℤ) + chunk_bytes.length then
          (some (.err .photoSizeExceedsLimit), { st with photo_buffer := [] })
        else
          let buf := st.photo_buffer ++ chunk_bytes
          if jtruthy (getJ cmd "is_last") then
            let expected := getJ cmd "sha256"
            if jtruthy expected ∧ ¬ expected = some (.jstr (sha buf)) then
              (some (.err .photoHashMismatch), { st with photo_buffer := [] })
            else
              let sess2 : Session :=
                { sess with photos := sess.photos ++ [buf]
                            photos_received := sess.photos_received + 1 }
              (some (.okPhoto sess2.photos_received sess2.num_photos),
                { st with current_session := some sess2, photo_buffer := [] })
          else (none, { st with photo_buffer := buf })
    | _ =>
      -- a truthy non-string data value makes base64.b64decode raise a
      -- TypeError, which the inner except turns into the base64 error
      (some (.err .invalidBase64), st)

/-- BLEProtocol.handle_end_upsert.  The command dict is unused by the
source body; the enrollment callback consumes the session and the
session is cleared regardless of the callback outcome. -/
def handle_end_upsert (cb : Session → Resp) (st : ProtoState)
    (_cmd : Command) : Resp × ProtoState :=
  match st.current_session with
  | none => (.err .noActiveSession, st)
  | some sess =>
    if ¬ sess.photos_received = sess.num_photos then
      (.err (.expectedPhotos sess.num_photos sess.photos_received), st)
    else (cb sess, { st with current_session := none, photo_buffer := [] })

/-- BLEProtocol.handle_update_period. -/
def handle_update_period (hf : String → List (String × JVal) → String)
    (trim : List String → List String) (cfg : BLEConfig) (st : ProtoState)
    (now : ℤ) (cmd : Command) (cb : JVal → JVal → JVal → Bool) :
    Resp × ProtoState :=
  if ¬ check_admin_permission cfg then (.err .adminNotEnabled, st)
  else
    let v := verify_hmac hf trim cfg st now cmd
    if ¬ v.1 then (.err .hmacVerificationFailed, v.2)
    else
      let employee_id := getJ cmd "employee_id"
      let access_start := getJ cmd "access_start"
      let access_end := getJ cmd "access_end"
      if ¬ (jtruthy employee_id ∧ jtruthy access_start ∧ jtruthy access_end) then
        (.err .missingRequiredParams, v.2)
      else if cb (employee_id.getD .jnull) (access_start.getD .jnull) (access_end.getD .jnull) then
        (.ok (.periodUpdated (employee_id.getD .jnull)), v.2)
      else (.err .employeeNotFound, v.2)

/-- BLEProtocol.handle_deactivate. -/
def handle_deactivate (hf : String → List (String × JVal) → String)
    (trim : List String → List String) (cfg : BLEConfig) (st : ProtoState)
    (now : ℤ) (cmd : Command) (cb : JVal → Bool) : Resp × ProtoState :=
  if ¬ check_admin_permission cfg then (.err .adminNotEnabled, st)
  else
    let v := verify_hmac hf trim cfg st now cmd
    if ¬ v.1 then (.err .hmacVerificationFailed, v.2)
    else
      let employee_id := getJ cmd "employee_id"
      if ¬ jtruthy employee_id then (.err .missingEmployeeId, v.2)
      else if cb (employee_id.getD .jnull) then
        (.ok (.employeeDeactivatedMsg (employee_id.getD .jnull)), v.2)
      else (.err .employeeNotFound, v.2)

/-- BLEProtocol.handle_delete (admin gate + HMAC gate, then the delete
callback).  Defined in src/ble_server.py but, notably, never reached
from the dispatcher of src/ble_server_real.py. -/
def handle_delete (hf : String → List (String × JVal) → String)
    (trim : List String → List String) (cfg : BLEConfig) (st : ProtoState)
    (now : ℤ) (cmd : Command) (cb : JVal → Bool) : Resp × ProtoState :=
  if ¬ check_admin_permission cfg then (.err .adminNotEnabled, st)
  else
    let v := verify_hmac hf trim cfg st now cmd
    if ¬ v.1 then (.err .hmacVerificationFailed, v.2)
    else
      let employee_id := getJ cmd "employee_id"
      if ¬ jtruthy employee_id then (.err .missingEmployeeId, v.2)
      else if cb (employee_id.getD .jnull) then
        (.ok (.employeeDeletedMsg (employee_id.getD .jnull)), v.2)
      else (.err .employeeNotFound, v.2)

/-- BLEProtocol.handle_get_status: wraps the status callback result. -/
def handle_get_status (statusData : List (String × JVal)) : Resp :=
  .statusResp statusData

/-- BLEProtocol.handle_list_employees: wraps the callback result; no
HMAC and no admin check.  Also unreachable from the dispatcher. -/
def handle_list_employees (employeesData : List (List (String × JVal))) : Resp :=
  .employeesResp employeesData

/-- BLEProtocol.handle_get_audit_logs: optional employee_id filter and
a limit defaulting to 100.  Also unreachable from the dispatcher. -/
def handle_get_audit_logs (cmd : Command)
    (cb : Option JVal → JVal → List (List (String × JVal))) : Resp :=
  .auditLogsResp (cb (getJ cmd "employee_id") ((getJ cmd "limit").getD (.jnum 100)))

/-- CommandCharacteristic.process_command of src/ble_server_real.py:
the dispatch table of the real BLE server.  The callback attributes
installed by RealBLEServer.set_callbacks are passed as arguments (so
every hasattr test of the source succeeds).  Only six of the nine
protocol commands have a dispatch arm; every other command string falls
through to the unknown-command error. -/
def process_command (hf : String → List (String × JVal) → String)
    (trim : List String → List String) (b64 : String → Option (List ℕ))
    (sha : List ℕ → String) (cfg : BLEConfig)
    (endCb : Session → Resp) (updCb : JVal → JVal → JVal → Bool)
    (deaCb : JVal → Bool) (statusData : List (String × JVal))
    (st : ProtoState) (now : ℤ) (command_type : Option JVal)
    (cmd : Command) : Option Resp × ProtoState :=
  if command_type = some (.jstr "BEGIN_UPSERT") then
    let r := handle_begin_upsert hf trim cfg st now cmd
    (some r.1, r.2)
  else if command_type = some (.jstr "PHOTO_CHUNK") then
    handle_photo_chunk b64 sha cfg st cmd
  else if command_type = some (.jstr "END_UPSERT") then
    let r := handle_end_upsert endCb st cmd
    (some r.1, r.2)
  else if command_type = some (.jstr "UPDATE_PERIOD") then
    let r := handle_update_period hf trim cfg st now cmd updCb
    (some r.1, r.2)
  else if command_type = some (.jstr "DEACTIVATE") then
    let r := handle_deactivate hf trim cfg st now cmd deaCb
    (some r.1, r.2)
  else if command_type = some (.jstr "GET_STATUS") then
    (some (handle_get_status statusData), st)
  else (some (.err (.unknownCommand command_type)), st)

/-! ## Notification fragmentation
(src/ble_server_real.py, class ResponseCharacteristic) -/

/-- ResponseCharacteristic._send_fragmented_notification: the loop
`for i in range(0, len(data), 179)` emitting flag+chunk frames, flag
0x01 while further fragments follow and 0x00 on the final one
(`is_last = i + 179 >= len(data)`).  MAX_NOTIFICATION_SIZE = 180, so
the chunk size is 179. -/
def fragmentMsg (data : List ℕ) : List (List ℕ) :=
  if data = [] then []
  else if data.length ≤ 179 then [0 :: data]
  else (1 :: data.take 179) :: fragmentMsg (data.drop 179)
termination_by data.length
decreasing_by
  simp only [List.length_drop]
  omega

/-- ResponseCharacteristic.send_notification: a message of at most 180
bytes goes out as one bare notification, a larger one through the
fragmentation envelope. -/
def send_notification (message : List ℕ) : List (List ℕ) :=
  if message.length ≤ 180 then [message] else fragmentMsg message

/-! ## Concrete inputs used by counterexamples -/

/-- A ledger of 1000 pairwise distinct accepted nonces, oldest first
(the nonce accepted n-th is the string of n+1 letters a). -/
def nonces1000 : List String :=
  (List.range 1000).map (fun n => String.mk (List.replicate (n + 1) 'a'))

/-- A protocol state whose nonce ledger is full. -/
def fullLedgerState : ProtoState :=
  { current_session := none, photo_buffer := [], used_nonces := nonces1000 }

/-- Claim C3 acceptance condition, phrased from the claim text: a
configured (nonempty) secret, both hmac and nonce fields present as
nonempty strings, a nonce not yet in the used set, a unix-seconds
prefix within 300 seconds of now in either direction, and an hmac
field equal to the digest of the command with hmac removed and keys
sorted under the shared secret. -/
def hmacAcceptSpec (hf : String → List (String × JVal) → String)
    (cfg : BLEConfig) (st : ProtoState) (now : ℤ) (cmd : Command) : Prop :=
  ∃ secret nn ts,
    cfg.shared_secret = some secret ∧ secret ≠ "" ∧
    getJ cmd "nonce" = some (.jstr nn) ∧ nn ≠ "" ∧
    nn ∉ st.used_nonces ∧
    nonceSeconds nn = some ts ∧ |now - ts| ≤ 300 ∧
    getJ cmd "hmac" = some (.jstr (hf secret (canonicalCommand cmd))) ∧
    hf secret (canonicalCommand cmd) ≠ ""

/-! # Theorems -/

/-- Claim C1: process_access_attempt evaluates grant-lockout, then
rate-limit, then the active flag, then the time window, in that fixed
order, returning denied with the first failing check as the reason;
a null employee or a below-threshold score short-circuits to denied
with no state mutation at all; when every check passes it returns
granted and records the grant time for that employee id. -/
theorem claim_C1 (cfg : ACConfig) (st : ACState) (now : ℚ)
    (e : EmployeeRow) (score thr : ℚ) :
    (process_access_attempt cfg st now none score thr =
        (false, .faceNotRecognized, ⟨score, thr, none, none⟩, st)) ∧
    (score < thr → process_access_attempt cfg st now (some e) score thr =
        (false, .lowSimilarity, ⟨score, thr, none, none⟩, st)) ∧
    (thr ≤ score →
      (check_granted_lockout cfg st now e.employee_id).1 = false →
      process_access_attempt cfg st now (some e) score thr =
        (false, (check_granted_lockout cfg st now e.employee_id).2,
          ⟨score, thr, some e.employee_id, some e.display_name⟩, st)) ∧
    (thr ≤ score →
      (check_granted_lockout cfg st now e.employee_id).1 = true →
      (check_rate_limit cfg st now (some e.employee_id)).1 = false →
      process_access_attempt cfg st now (some e) score thr =
        (false, .rateLimitTagged (check_rate_limit cfg st now (some e.employee_id)).2.1,
          ⟨score, thr, some e.employee_id, some e.display_name⟩,
          (check_rate_limit cfg st now (some e.employee_id)).2.2)) ∧
    (thr ≤ score →
      (check_granted_lockout cfg st now e.employee_id).1 = true →
      (check_rate_limit cfg st now (some e.employee_id)).1 = true →
      (validate_access e now).1 = false →
      process_access_attempt cfg st now (some e) score thr =
        (false, (validate_access e now).2,
          ⟨score, thr, some e.employee_id, some e.display_name⟩,
          (check_rate_limit cfg st now (some e.employee_id)).2.2)) ∧
    (thr ≤ score →
      (check_granted_lockout cfg st now e.employee_id).1 = true →
      (check_rate_limit cfg st now (some e.employee_id)).1 = true →
      (validate_access e now).1 = true →
      process_access_attempt cfg st now (some e) score thr =
        (true, .accessGranted,
          ⟨score, thr, some e.employee_id, some e.display_name⟩,
          record_granted_access (check_rate_limit cfg st now (some e.employee_id)).2.2
            now e.employee_id) ∧
      (record_granted_access (check_rate_limit cfg st now (some e.employee_id)).2.2
          now e.employee_id).last_granted_time e.employee_id = now) := by
  refine ⟨rfl, ?_, ?_, ?_, ?_, ?_⟩
  · intro hlt
    simp only [process_access_attempt, if_pos hlt]
  · intro hge hlk
    simp only [process_access_attempt, if_neg (not_lt.mpr hge), hlk]
    simp
  · intro hge hlk hrl
    simp only [process_access_attempt, if_neg (not_lt.mpr hge), hlk, hrl]
    simp
  · intro hge hlk hrl hva
    simp only [process_access_attempt, if_neg (not_lt.mpr hge), hlk, hrl, hva]
    simp
  · intro hge hlk hrl hva
    refine ⟨?_, ?_⟩
    · simp only [process_access_attempt, if_neg (not_lt.mpr hge), hlk, hrl, hva]
      simp
    · simp [record_granted_access]

/-- Witness for C1: a fully passing attempt at concrete inputs is
granted and records the grant time. -/
theorem claim_C1_witness :
    ((6/10 : ℚ) ≤ 9/10) ∧
    ((check_granted_lockout ⟨30, 1/2, 10⟩ ACState.init 100 "EMP001").1 = true) ∧
    ((check_rate_limit ⟨30, 1/2, 10⟩ ACState.init 100 (some "EMP001")).1 = true) ∧
    ((validate_access ⟨"EMP001", none, 0, 200, true, 0, 0⟩ 100).1 = true) ∧
    (process_access_attempt ⟨30, 1/2, 10⟩ ACState.init 100
        (some ⟨"EMP001", none, 0, 200, true, 0, 0⟩) (9/10) (6/10) =
      (true, .accessGranted, ⟨9/10, 6/10, some "EMP001", some none⟩,
        record_granted_access
          (check_rate_limit ⟨30, 1/2, 10⟩ ACState.init 100 (some "EMP001")).2.2
          100 "EMP001")) ∧
    ((record_granted_access
        (check_rate_limit ⟨30, 1/2, 10⟩ ACState.init 100 (some "EMP001")).2.2
        100 "EMP001").last_granted_time "EMP001" = 100) := by
  have hlk : (check_granted_lockout ⟨30, 1/2, 10⟩ ACState.init 100 "EMP001").1 = true := by
    norm_num [check_granted_lockout, ACState.init]
  have hrl : (check_rate_limit ⟨30, 1/2, 10⟩ ACState.init 100 (some "EMP001")).1 = true := by
    simp only [check_rate_limit, ACState.init]
    norm_num
    decide
  have hva : (validate_access ⟨"EMP001", none, 0, 200, true, 0, 0⟩ 100).1 = true := by
    norm_num [validate_access, check_employee_active, check_access_period]
  have h := (claim_C1 ⟨30, 1/2, 10⟩ ACState.init 100
      ⟨"EMP001", none, 0, 200, true, 0, 0⟩ (9/10) (6/10)).2.2.2.2.2
      (by norm_num) hlk hrl hva
  exact ⟨by norm_num, hlk, hrl, hva, h.1, h.2⟩

/-- Clipped cosine similarity is nonnegative. -/
theorem cosine_similarity_nonneg (a b : List ℚ) : 0 ≤ cosine_similarity a b := by
  unfold cosine_similarity clip01
  split
  · exact le_refl 0
  · exact le_min (le_max_right _ 0) zero_le_one

/-- Clipped cosine similarity is at most one. -/
theorem cosine_similarity_le_one (a b : List ℚ) : cosine_similarity a b ≤ 1 := by
  unfold cosine_similarity clip01
  split
  · exact zero_le_one
  · exact min_le_right _ 1

/-- A zero-norm query makes every similarity zero. -/
theorem cosine_similarity_zero_left (a b : List ℚ) (h : normSq a = 0) :
    cosine_similarity a b = 0 := by
  unfold cosine_similarity
  exact if_pos (Or.inl h)

/-- The running best score of one loop step is the max of the old best
and the new similarity. -/
theorem mStep_snd_eq (a : Option String × ℝ × Option String)
    (pr : EmployeeRow × ℝ) : (mStep a pr).2.1 = max a.2.1 pr.2 := by
  unfold mStep
  rcases le_or_lt pr.2 a.2.1 with h | h
  · rw [if_neg (not_lt.mpr h), max_eq_left h]
  · rw [if_pos h, max_eq_right h.le]

/-- A fold of max over a list of nonnegative floor 0 stays nonnegative. -/
theorem foldr_max_nonneg (l : List ℝ) : 0 ≤ l.foldr max 0 := by
  induction l with
  | nil => exact le_refl 0
  | cons x xs ih => exact le_trans ih (le_max_right x _)

/-- foldr max distributes over append (with the 0 floor). -/
theorem foldr_max_append (l1 l2 : List ℝ) :
    (l1 ++ l2).foldr max 0 = max (l1.foldr max 0) (l2.foldr max 0) := by
  induction l1 with
  | nil => simp [max_eq_right (foldr_max_nonneg l2)]
  | cons x xs ih => simp [ih, max_assoc]

/-- Every element is below the foldr max. -/
theorem le_foldr_max (l : List ℝ) (x : ℝ) (hx : x ∈ l) : x ≤ l.foldr max 0 := by
  induction l with
  | nil => cases hx
  | cons y ys ih =>
    rcases List.mem_cons.mp hx with h | h
    · subst h; exact le_max_left x _
    · exact le_trans (ih h) (le_max_right y _)

/-- A common upper bound of the elements (and of 0) bounds the foldr max. -/
theorem foldr_max_le (l : List ℝ) (c : ℝ) (hc : 0 ≤ c)
    (h : ∀ x ∈ l, x ≤ c) : l.foldr max 0 ≤ c := by
  induction l with
  | nil => exact hc
  | cons y ys ih =>
    refine max_le (h y (List.mem_cons_self y ys)) (ih ?_)
    intro x hx
    exact h x (List.mem_cons_of_mem y hx)

/-- A left fold of max from a nonnegative seed equals the max of the
seed and the right fold from 0. -/
theorem foldl_max_eq_foldr (l : List ℝ) (a : ℝ) (ha : 0 ≤ a) :
    l.foldl max a = max a (l.foldr max 0) := by
  induction l generalizing a with
  | nil => simp [max_eq_left ha]
  | cons x xs ih =>
    have : 0 ≤ max a x := le_trans ha (le_max_left a x)
    simp only [List.foldl_cons, List.foldr_cons, ih (max a x) this]
    rw [max_assoc, max_comm x _, ← max_assoc, max_assoc]

/-- The best score tracked by the loop is the fold of max over the
visited similarities. -/
theorem foldl_mStep_snd (L : List (EmployeeRow × ℝ))
    (acc : Option String × ℝ × Option String) :
    (L.foldl mStep acc).2.1 = (L.map Prod.snd).foldl max acc.2.1 := by
  induction L generalizing acc with
  | nil => rfl
  | cons pr rest ih =>
    simp only [List.foldl_cons, List.map_cons, ih, mStep_snd_eq]

/-- If no visited similarity beats the accumulator, the loop leaves the
accumulator untouched. -/
theorem foldl_mStep_of_forall_le (L : List (EmployeeRow × ℝ))
    (acc : Option String × ℝ × Option String)
    (h : ∀ pr ∈ L, pr.2 ≤ acc.2.1) : L.foldl mStep acc = acc := by
  induction L with
  | nil => rfl
  | cons pr rest ih =>
    have hpr : pr.2 ≤ acc.2.1 := h pr (List.mem_cons_self pr rest)
    have hstep : mStep acc pr = acc := by
      unfold mStep
      exact if_neg (not_lt.mpr hpr)
    simp only [List.foldl_cons, hstep]
    exact ih (fun q hq => h q (List.mem_cons_of_mem pr hq))

/-- Every visited similarity is below maxScore. -/
theorem snd_le_maxScore (L : List (EmployeeRow × ℝ)) (pr : EmployeeRow × ℝ)
    (h : pr ∈ L) : pr.2 ≤ maxScore L :=
  le_foldr_max _ _ (List.mem_map_of_mem Prod.snd h)

/-- First-hit characterization of the matcher loop: when the overall
maximum strictly beats the (nonnegative) seed, the loop returns the
identity fields of the first pair attaining that maximum. -/
theorem foldl_mStep_first (L : List (EmployeeRow × ℝ))
    (acc : Option String × ℝ × Option String) (h0 : 0 ≤ acc.2.1)
    (hlt : acc.2.1 < maxScore L) :
    ∃ (i : ℕ) (pr : EmployeeRow × ℝ), L[i]? = some pr ∧ pr.2 = maxScore L ∧
      (∀ j, j < i → ∀ p2 : EmployeeRow × ℝ, L[j]? = some p2 → p2.2 < maxScore L) ∧
      L.foldl mStep acc = (some pr.1.employee_id, maxScore L, pr.1.display_name) := by
  induction L generalizing acc with
  | nil =>
    exfalso
    have : maxScore ([] : List (EmployeeRow × ℝ)) = 0 := rfl
    rw [this] at hlt
    exact absurd (lt_of_le_of_lt h0 hlt) (lt_irrefl 0)
  | cons pr rest ih =>
    have hM : maxScore (pr :: rest) = max pr.2 (maxScore rest) := rfl
    rcases le_or_lt (maxScore (pr :: rest)) pr.2 with hge | hlt2
    · -- the head already attains the maximum
      have heq : pr.2 = maxScore (pr :: rest) :=
        le_antisymm (snd_le_maxScore _ _ (List.mem_cons_self pr rest)) hge
      have hstep : mStep acc pr = (some pr.1.employee_id, pr.2, pr.1.display_name) := by
        unfold mStep
        exact if_pos (lt_of_lt_of_le hlt hge)
      refine ⟨0, pr, by simp, heq, fun j hj => absurd hj (Nat.not_lt_zero j), ?_⟩
      have hrest : rest.foldl mStep (some pr.1.employee_id, pr.2, pr.1.display_name) =
          (some pr.1.employee_id, pr.2, pr.1.display_name) := by
        refine foldl_mStep_of_forall_le _ _ ?_
        intro q hq
        calc q.2 ≤ maxScore rest := snd_le_maxScore _ _ hq
        _ ≤ max pr.2 (maxScore rest) := le_max_right _ _
        _ = pr.2 := by rw [← hM, ← heq]
      rw [← heq]
      simp only [List.foldl_cons, hstep, hrest]
    · -- the head is strictly below, the maximum lives in the tail
      have hXle : maxScore rest ≤ maxScore (pr :: rest) := by
        rw [hM]; exact le_max_right _ _
      have hX : maxScore rest = maxScore (pr :: rest) := by
        rcases lt_or_eq_of_le hXle with hc | hc
        · exfalso
          have : maxScore (pr :: rest) < maxScore (pr :: rest) := by
            calc maxScore (pr :: rest) = max pr.2 (maxScore rest) := hM
            _ < maxScore (pr :: rest) := max_lt hlt2 hc
          exact absurd this (lt_irrefl _)
        · exact hc
      have hacc1 : (mStep acc pr).2.1 < maxScore rest := by
        rw [mStep_snd_eq, hX]
        exact max_lt hlt hlt2
      have hacc0 : 0 ≤ (mStep acc pr).2.1 := by
        rw [mStep_snd_eq]
        exact le_trans h0 (le_max_left _ _)
      obtain ⟨i, pr2, hget, hval, hprior, hres⟩ := ih (mStep acc pr) hacc0 hacc1
      refine ⟨i + 1, pr2, by simpa using hget, by rw [← hX]; exact hval, ?_, ?_⟩
      · intro j hj p2 hp2
        cases j with
        | zero =>
          simp only [List.getElem?_cons_zero, Option.some.injEq] at hp2
          subst hp2
          exact hlt2
        | succ k =>
          have hk : k < i := by omega
          have : rest[k]? = some p2 := by simpa using hp2
          have := hprior k hk p2 this
          rw [← hX]
          exact this
      · simp only [List.foldl_cons, hres, hX]

/-- The nested loop of find_best_match equals the single fold over the
flattened (employee, similarity) stream. -/
theorem find_fold_eq (q : List ℚ) (cands : List (EmployeeRow × List (List ℚ)))
    (acc : Option String × ℝ × Option String) :
    cands.foldl
      (fun acc p => p.2.foldl
        (fun a e =>
          if cosine_similarity q e > a.2.1 then
            (some p.1.employee_id, cosine_similarity q e, p.1.display_name)
          else a) acc)
      acc = (simPairs q cands).foldl mStep acc := by
  induction cands generalizing acc with
  | nil => rfl
  | cons p rest ih =>
    have hsimp : simPairs q (p :: rest) =
        p.2.map (fun e => (p.1, cosine_similarity q e)) ++ simPairs q rest := by
      simp [simPairs]
    rw [List.foldl_cons, ih, hsimp, List.foldl_append]
    congr 1
    rw [List.foldl_map]
    rfl

/-- Every similarity in the flattened stream is a cosine similarity
against the query. -/
theorem simPairs_snd (q : List ℚ) (cands : List (EmployeeRow × List (List ℚ))) :
    ∀ pr ∈ simPairs q cands, ∃ e, pr.2 = cosine_similarity q e := by
  intro pr h
  simp only [simPairs, List.mem_flatten, List.mem_map] at h
  obtain ⟨blk, ⟨p, hp, rfl⟩, hpr⟩ := h
  obtain ⟨e, he, rfl⟩ := List.mem_map.mp hpr
  exact ⟨e, rfl⟩

/-- The flattened maximum equals the per-employee maximum of maxima. -/
theorem maxScore_simPairs (q : List ℚ) (cands : List (EmployeeRow × List (List ℚ))) :
    maxScore (simPairs q cands) = (cands.map (fun p => empBest q p.2)).foldr max 0 := by
  induction cands with
  | nil => rfl
  | cons p rest ih =>
    have hsimp : simPairs q (p :: rest) =
        p.2.map (fun e => (p.1, cosine_similarity q e)) ++ simPairs q rest := by
      simp [simPairs]
    rw [List.map_cons, List.foldr_cons, ← ih]
    unfold maxScore
    rw [hsimp, List.map_append, foldr_max_append]
    congr 1
    simp [empBest, List.map_map, Function.comp_def]

/-- Claim C2 (amended): find_best_match reports as score the maximum
over all employees and vectors of the clamped cosine similarity, that
score lies in [0, 1] and is the maximum of the per-employee maxima;
below the threshold no employee is returned together with the best
observed score; at or above the threshold the first-encountered pair
attaining the maximum is returned, provided the maximum is strictly
positive (a maximum of 0 never installs an employee, because the loop
only replaces on a strict improvement over the initial 0); an empty
candidate set and a zero-norm query both yield no match with score 0. -/
theorem claim_C2 (q : List ℚ) (cands : List (EmployeeRow × List (List ℚ))) (t : ℝ) :
    ((find_best_match q cands t).2.1 = maxScore (simPairs q cands)) ∧
    (0 ≤ maxScore (simPairs q cands) ∧ maxScore (simPairs q cands) ≤ 1) ∧
    (maxScore (simPairs q cands) =
      (cands.map (fun p => empBest q p.2)).foldr max 0) ∧
    (maxScore (simPairs q cands) < t →
      find_best_match q cands t = (none, maxScore (simPairs q cands), none)) ∧
    (t ≤ maxScore (simPairs q cands) → 0 < maxScore (simPairs q cands) →
      ∃ (i : ℕ) (pr : EmployeeRow × ℝ),
        (simPairs q cands)[i]? = some pr ∧
        pr.2 = maxScore (simPairs q cands) ∧
        (∀ j, j < i → ∀ p2 : EmployeeRow × ℝ, (simPairs q cands)[j]? = some p2 →
          p2.2 < maxScore (simPairs q cands)) ∧
        find_best_match q cands t =
          (some pr.1.employee_id, maxScore (simPairs q cands), pr.1.display_name)) ∧
    (maxScore (simPairs q cands) ≤ 0 → find_best_match q cands t = (none, 0, none)) ∧
    (cands = [] → find_best_match q cands t = (none, 0, none)) ∧
    (normSq q = 0 → find_best_match q cands t = (none, 0, none)) := by
  set L := simPairs q cands with hL
  set B := L.foldl mStep (none, (0:ℝ), none) with hBdef
  have hfb : find_best_match q cands t = if B.2.1 < t then (none, B.2.1, none) else B := by
    unfold find_best_match
    rw [find_fold_eq]
  have hB2 : B.2.1 = maxScore L := by
    rw [hBdef, foldl_mStep_snd]
    have h0 : ((none, (0:ℝ), none) : Option String × ℝ × Option String).2.1 = 0 := rfl
    rw [h0, foldl_max_eq_foldr _ _ (le_refl 0), max_eq_right (foldr_max_nonneg _)]
    rfl
  have hMnn : 0 ≤ maxScore L := foldr_max_nonneg _
  have hMle : maxScore L ≤ 1 := by
    refine foldr_max_le _ _ zero_le_one ?_
    intro x hx
    obtain ⟨pr, hpr, rfl⟩ := List.mem_map.mp hx
    obtain ⟨e, he⟩ := simPairs_snd q cands pr hpr
    rw [he]
    exact cosine_similarity_le_one q e
  have hF : maxScore L ≤ 0 → find_best_match q cands t = (none, 0, none) := by
    intro hM0
    have hBinit : B = (none, (0:ℝ), none) := by
      rw [hBdef]
      refine foldl_mStep_of_forall_le _ _ ?_
      intro pr hpr
      exact le_trans (snd_le_maxScore _ _ hpr) hM0
    rw [hfb, hBinit]
    split <;> rfl
  refine ⟨?_, ⟨hMnn, hMle⟩, maxScore_simPairs q cands, ?_, ?_, hF, ?_, ?_⟩
  · rw [hfb]
    split <;> rw [hB2]
  · intro hlt
    rw [hfb, if_pos (by rw [hB2]; exact hlt), hB2]
  · intro hle hpos
    obtain ⟨i, pr, hget, hval, hprior, hres⟩ :=
      foldl_mStep_first L (none, (0:ℝ), none) (le_refl 0) (by simpa using hpos)
    refine ⟨i, pr, hget, hval, hprior, ?_⟩
    rw [hfb, if_neg (by rw [hB2]; exact not_lt.mpr hle), hBdef]
    exact hres
  · intro hc
    refine hF ?_
    rw [hL, hc]
    exact le_refl 0
  · intro hq
    refine hF ?_
    refine foldr_max_le _ _ (le_refl 0) ?_
    intro x hx
    obtain ⟨pr, hpr, rfl⟩ := List.mem_map.mp hx
    obtain ⟨e, he⟩ := simPairs_snd q cands pr hpr
    rw [he, cosine_similarity_zero_left q e hq]

/-- Counterexample to C2 as stated: with threshold 0, one employee
whose single vector is orthogonal to the query, the greatest per-
employee score is 0, which is at least the threshold, yet
find_best_match returns no employee: the claimed iff (employee
returned iff greatest score at least threshold) fails. -/
theorem claim_C2_cex :
    ¬ (((find_best_match [(1:ℚ), 0] [(⟨"E1", none, 0, 0, true, 0, 0⟩, [[(0:ℚ), 1]])] 0).1 =
          some "E1") ↔
        (0 : ℝ) ≤ maxScore (simPairs [(1:ℚ), 0]
          [(⟨"E1", none, 0, 0, true, 0, 0⟩, [[(0:ℚ), 1]])])) := by
  have hd : dotQ [(1:ℚ), 0] [(0:ℚ), 1] = 0 := by norm_num [dotQ]
  have hns : ¬ (normSq [(1:ℚ), 0] = 0 ∨ normSq [(0:ℚ), 1] = 0) := by
    norm_num [normSq, dotQ]
  have hcos : cosine_similarity [(1:ℚ), 0] [(0:ℚ), 1] = 0 := by
    unfold cosine_similarity
    rw [if_neg hns, hd]
    norm_num [clip01]
  have hM : maxScore (simPairs [(1:ℚ), 0]
      [(⟨"E1", none, 0, 0, true, 0, 0⟩, [[(0:ℚ), 1]])]) = 0 := by
    simp [simPairs, maxScore, hcos]
  have hfind : find_best_match [(1:ℚ), 0]
      [(⟨"E1", none, 0, 0, true, 0, 0⟩, [[(0:ℚ), 1]])] 0 = (none, 0, none) := by
    unfold find_best_match
    simp [hcos]
  intro hiff
  have := hiff.mpr (by rw [hM])
  rw [hfind] at this
  exact Option.noConfusion this

/-- Witness for C2: at a concrete matching input the below-threshold
branch (threshold 2) returns no match with the best score, and the
at-or-above-threshold branch (threshold 1/2, best score 1 > 0) returns
the first employee attaining the maximum. -/
theorem claim_C2_witness :
    (maxScore (simPairs [(1:ℚ), 0] [(⟨"E1", none, 0, 0, true, 0, 0⟩, [[(1:ℚ), 0]])]) < 2 ∧
      find_best_match [(1:ℚ), 0] [(⟨"E1", none, 0, 0, true, 0, 0⟩, [[(1:ℚ), 0]])] 2 =
        (none, maxScore (simPairs [(1:ℚ), 0] [(⟨"E1", none, 0, 0, true, 0, 0⟩, [[(1:ℚ), 0]])]),
          none)) ∧
    ((1/2 : ℝ) ≤ maxScore (simPairs [(1:ℚ), 0] [(⟨"E1", none, 0, 0, true, 0, 0⟩, [[(1:ℚ), 0]])]) ∧
      0 < maxScore (simPairs [(1:ℚ), 0] [(⟨"E1", none, 0, 0, true, 0, 0⟩, [[(1:ℚ), 0]])]) ∧
      ∃ (i : ℕ) (pr : EmployeeRow × ℝ),
        (simPairs [(1:ℚ), 0] [(⟨"E1", none, 0, 0, true, 0, 0⟩, [[(1:ℚ), 0]])])[i]? = some pr ∧
        pr.2 = maxScore (simPairs [(1:ℚ), 0] [(⟨"E1", none, 0, 0, true, 0, 0⟩, [[(1:ℚ), 0]])]) ∧
        (∀ j, j < i → ∀ p2 : EmployeeRow × ℝ,
          (simPairs [(1:ℚ), 0] [(⟨"E1", none, 0, 0, true, 0, 0⟩, [[(1:ℚ), 0]])])[j]? = some p2 →
          p2.2 < maxScore (simPairs [(1:ℚ), 0] [(⟨"E1", none, 0, 0, true, 0, 0⟩, [[(1:ℚ), 0]])])) ∧
        find_best_match [(1:ℚ), 0] [(⟨"E1", none, 0, 0, true, 0, 0⟩, [[(1:ℚ), 0]])] (1/2) =
          (some pr.1.employee_id,
            maxScore (simPairs [(1:ℚ), 0] [(⟨"E1", none, 0, 0, true, 0, 0⟩, [[(1:ℚ), 0]])]),
            pr.1.display_name)) := by
  have hd : dotQ [(1:ℚ), 0] [(1:ℚ), 0] = 1 := by norm_num [dotQ]
  have hns : ¬ (normSq [(1:ℚ), 0] = 0 ∨ normSq [(1:ℚ), 0] = 0) := by
    norm_num [normSq, dotQ]
  have hn : normSq [(1:ℚ), 0] = 1 := by norm_num [normSq, dotQ]
  have hcos : cosine_similarity [(1:ℚ), 0] [(1:ℚ), 0] = 1 := by
    unfold cosine_similarity
    rw [if_neg hns, hd, hn]
    norm_num [clip01, Real.sqrt_one]
  have hM : maxScore (simPairs [(1:ℚ), 0]
      [(⟨"E1", none, 0, 0, true, 0, 0⟩, [[(1:ℚ), 0]])]) = 1 := by
    simp [simPairs, maxScore, hcos]
  refine ⟨⟨by rw [hM]; norm_num, ?_⟩, by rw [hM]; norm_num, by rw [hM]; norm_num, ?_⟩
  · exact (claim_C2 [(1:ℚ), 0] [(⟨"E1", none, 0, 0, true, 0, 0⟩, [[(1:ℚ), 0]])] 2).2.2.2.1
      (by rw [hM]; norm_num)
  · exact (claim_C2 [(1:ℚ), 0] [(⟨"E1", none, 0, 0, true, 0, 0⟩, [[(1:ℚ), 0]])] (1/2)).2.2.2.2.1
      (by rw [hM]; norm_num) (by rw [hM]; norm_num)

/-- Case analysis of verify_hmac with HMAC enabled: either it rejects
with the state untouched and the acceptance condition fails, or the
acceptance condition holds and the nonce is appended (then trimmed when
the 1000 bound is exceeded). -/
theorem verify_hmac_cases (hf : String → List (String × JVal) → String)
    (trim : List String → List String) (cfg : BLEConfig) (st : ProtoState)
    (now : ℤ) (cmd : Command) (hen : cfg.hmac_enabled = true) :
    (verify_hmac hf trim cfg st now cmd = (false, st) ∧
      ¬ hmacAcceptSpec hf cfg st now cmd) ∨
    (∃ secret nn ts,
      cfg.shared_secret = some secret ∧ secret ≠ "" ∧
      getJ cmd "nonce" = some (.jstr nn) ∧ nn ≠ "" ∧
      nn ∉ st.used_nonces ∧
      nonceSeconds nn = some ts ∧ |now - ts| ≤ 300 ∧
      getJ cmd "hmac" = some (.jstr (hf secret (canonicalCommand cmd))) ∧
      hf secret (canonicalCommand cmd) ≠ "" ∧
      verify_hmac hf trim cfg st now cmd =
        (true, { st with used_nonces :=
          if 1000 < (st.used_nonces ++ [nn]).length then trim (st.used_nonces ++ [nn])
          else st.used_nonces ++ [nn] })) := by
  unfold verify_hmac
  rw [hen]
  simp only [not_true, if_false, Bool.true_eq_false, ite_false]
  cases hsec : cfg.shared_secret with
  | none =>
    left
    refine ⟨rfl, ?_⟩
    rintro ⟨secret, nn, ts, hs, -, -, -, -, -, -, -, -⟩
    rw [hsec] at hs
    exact Option.noConfusion hs
  | some secret =>
    dsimp only
    by_cases hse : secret = ""
    · rw [if_pos hse]
      left
      refine ⟨rfl, ?_⟩
      rintro ⟨secret2, nn, ts, hs, hs2, -, -, -, -, -, -, -⟩
      rw [hsec] at hs
      injection hs with hs
      exact hs2 (hs ▸ hse)
    · rw [if_neg hse]
      by_cases htr : jtruthy (getJ cmd "hmac") = true ∧ jtruthy (getJ cmd "nonce") = true
      · rw [if_neg (by simp [htr.1, htr.2])]
        cases hn : getJ cmd "nonce" with
        | none =>
          exfalso
          rw [hn] at htr
          exact Bool.noConfusion htr.2
        | some nv =>
          cases nv with
          | jstr nn =>
            dsimp only
            by_cases hmem : nn ∈ st.used_nonces
            · rw [if_pos hmem]
              left
              refine ⟨rfl, ?_⟩
              rintro ⟨secret2, nn2, ts, -, -, hnn, -, hnotmem, -, -, -, -⟩
              rw [hn] at hnn
              injection hnn with hnn
              injection hnn with hnn
              exact hnotmem (hnn ▸ hmem)
            · rw [if_neg hmem]
              cases hts : nonceSeconds nn with
              | none =>
                dsimp only
                left
                refine ⟨rfl, ?_⟩
                rintro ⟨secret2, nn2, ts, -, -, hnn, -, -, hts2, -, -, -⟩
                rw [hn] at hnn
                injection hnn with hnn
                injection hnn with hnn
                rw [← hnn, hts] at hts2
                exact Option.noConfusion hts2
              | some ts =>
                dsimp only
                by_cases hfresh : 300 < |now - ts|
                · rw [if_pos hfresh]
                  left
                  refine ⟨rfl, ?_⟩
                  rintro ⟨secret2, nn2, ts2, -, -, hnn, -, -, hts2, hfr2, -, -⟩
                  rw [hn] at hnn
                  injection hnn with hnn
                  injection hnn with hnn
                  rw [← hnn, hts] at hts2
                  injection hts2 with hts2
                  rw [← hts2] at hfr2
                  exact absurd hfresh (not_lt.mpr hfr2)
                · rw [if_neg hfresh]
                  cases hsig : getJ cmd "hmac" with
                  | none =>
                    exfalso
                    rw [hsig] at htr
                    exact Bool.noConfusion htr.1
                  | some sv =>
                    cases sv with
                    | jstr sg =>
                      dsimp only
                      by_cases heq : sg = hf secret (canonicalCommand cmd)
                      · rw [if_pos heq]
                        right
                        obtain ⟨htr1, htr2⟩ := htr
                        rw [hsig] at htr1
                        rw [hn] at htr2
                        simp only [jtruthy, ne_eq, decide_eq_true_eq] at htr1 htr2
                        refine ⟨secret, nn, ts, rfl, hse, rfl, htr2, hmem, hts,
                          not_lt.mp hfresh, ?_, ?_, rfl⟩
                        · rw [heq]
                        · rw [← heq]
                          exact htr1
                      · rw [if_neg heq]
                        left
                        refine ⟨rfl, ?_⟩
                        rintro ⟨secret2, nn2, ts2, hs, -, -, -, -, -, -, hsg2, -⟩
                        rw [hsec] at hs
                        injection hs with hs
                        rw [hsig] at hsg2
                        injection hsg2 with hsg2
                        injection hsg2 with hsg2
                        rw [← hs] at hsg2
                        exact heq hsg2
                    | jnum n =>
                      left
                      refine ⟨rfl, ?_⟩
                      rintro ⟨secret2, nn2, ts2, -, -, -, -, -, -, -, hsg2, -⟩
                      rw [hsig] at hsg2
                      exact JVal.noConfusion (Option.some.inj hsg2)
                    | jbool b =>
                      left
                      refine ⟨rfl, ?_⟩
                      rintro ⟨secret2, nn2, ts2, -, -, -, -, -, -, -, hsg2, -⟩
                      rw [hsig] at hsg2
                      exact JVal.noConfusion (Option.some.inj hsg2)
                    | jnull =>
                      left
                      refine ⟨rfl, ?_⟩
                      rintro ⟨secret2, nn2, ts2, -, -, -, -, -, -, -, hsg2, -⟩
                      rw [hsig] at hsg2
                      exact JVal.noConfusion (Option.some.inj hsg2)
          | jnum n =>
            left
            refine ⟨rfl, ?_⟩
            rintro ⟨secret2, nn2, ts2, -, -, hnn, -, -, -, -, -, -⟩
            rw [hn] at hnn
            exact JVal.noConfusion (Option.some.inj hnn)
          | jbool b =>
            left
            refine ⟨rfl, ?_⟩
            rintro ⟨secret2, nn2, ts2, -, -, hnn, -, -, -, -, -, -⟩
            rw [hn] at hnn
            exact JVal.noConfusion (Option.some.inj hnn)
          | jnull =>
            left
            refine ⟨rfl, ?_⟩
            rintro ⟨secret2, nn2, ts2, -, -, hnn, -, -, -, -, -, -⟩
            rw [hn] at hnn
            exact JVal.noConfusion (Option.some.inj hnn)
      · rw [if_pos (by
          intro hcontra
          exact htr ⟨hcontra.1, hcontra.2⟩)]
        left
        refine ⟨rfl, ?_⟩
        rintro ⟨secret2, nn2, ts2, -, -, hnn, hne, -, -, -, hsg, hsgne⟩
        refine htr ⟨?_, ?_⟩
        · rw [hsg]
          simp [jtruthy, hsgne]
        · rw [hnn]
          simp [jtruthy, hne]

/-- With HMAC enabled, any command whose nonce is already in the ledger
is rejected with no state change. -/
theorem verify_hmac_reject_reused (hf : String → List (String × JVal) → String)
    (trim : List String → List String) (cfg : BLEConfig) (st : ProtoState)
    (now : ℤ) (cmd : Command) (nn : String) (hen : cfg.hmac_enabled = true)
    (hn : getJ cmd "nonce" = some (.jstr nn)) (hmem : nn ∈ st.used_nonces) :
    verify_hmac hf trim cfg st now cmd = (false, st) := by
  rcases verify_hmac_cases hf trim cfg st now cmd hen with ⟨heq, -⟩ | ⟨s2, nn2, ts2, -, -, hn2, -, hnotmem, -, -, -, -, -⟩
  · exact heq
  · rw [hn] at hn2
    injection hn2 with hn2
    injection hn2 with hn2
    exact absurd (hn2 ▸ hmem) hnotmem

/-- Claim C3: with HMAC enabled, verify_hmac accepts exactly when a
secret is configured, the command carries truthy nonce and hmac fields,
the nonce is unused, its unix-seconds prefix is within 300 seconds of
now in either direction, and the hmac equals the digest of the command
with hmac removed and keys sorted; a rejection leaves the ledger
untouched, an acceptance appends the nonce (subject to the 1000-entry
trim), and while the ledger is below its bound an accepted nonce stays
recorded, so replaying any command with that nonce is rejected. -/
theorem claim_C3 (hf : String → List (String × JVal) → String)
    (trim : List String → List String) (cfg : BLEConfig) (st : ProtoState)
    (now : ℤ) (cmd : Command) (hen : cfg.hmac_enabled = true) :
    ((verify_hmac hf trim cfg st now cmd).1 = true ↔
      hmacAcceptSpec hf cfg st now cmd) ∧
    ((verify_hmac hf trim cfg st now cmd).1 = false →
      (verify_hmac hf trim cfg st now cmd).2 = st) ∧
    (∀ nn, getJ cmd "nonce" = some (.jstr nn) →
      (verify_hmac hf trim cfg st now cmd).1 = true →
      (verify_hmac hf trim cfg st now cmd).2.used_nonces =
        (if 1000 < (st.used_nonces ++ [nn]).length then trim (st.used_nonces ++ [nn])
         else st.used_nonces ++ [nn])) ∧
    (st.used_nonces.length < 1000 →
      ∀ nn, getJ cmd "nonce" = some (.jstr nn) →
      (verify_hmac hf trim cfg st now cmd).1 = true →
      (verify_hmac hf trim cfg st now cmd).2.used_nonces = st.used_nonces ++ [nn] ∧
      (∀ (cmd2 : Command) (now2 : ℤ), getJ cmd2 "nonce" = some (.jstr nn) →
        (verify_hmac hf trim cfg (verify_hmac hf trim cfg st now cmd).2 now2 cmd2).1 =
          false)) := by
  rcases verify_hmac_cases hf trim cfg st now cmd hen with
    ⟨heq, hnot⟩ | ⟨secret, nn0, ts0, hs, hse, hn0, hne0, hmem0, hts0, hfr0, hsg0, hsge0, heq⟩
  · refine ⟨?_, ?_, ?_, ?_⟩
    · rw [heq]
      simp only [Bool.false_eq_true, false_iff]
      exact hnot
    · intro _
      rw [heq]
    · intro nn hn htrue
      rw [heq] at htrue
      exact Bool.noConfusion htrue
    · intro hlen nn hn htrue
      rw [heq] at htrue
      exact Bool.noConfusion htrue
  · have hacc : hmacAcceptSpec hf cfg st now cmd :=
      ⟨secret, nn0, ts0, hs, hse, hn0, hne0, hmem0, hts0, hfr0, hsg0, hsge0⟩
    refine ⟨?_, ?_, ?_, ?_⟩
    · rw [heq]
      simp only [true_iff]
      exact hacc
    · intro hfalse
      rw [heq] at hfalse
      exact Bool.noConfusion hfalse
    · intro nn hn _
      rw [hn0] at hn
      injection hn with hn
      injection hn with hn
      rw [heq, ← hn]
    · intro hlen nn hn _
      rw [hn0] at hn
      injection hn with hn
      injection hn with hn
      subst hn
      have hnotrim : ¬ 1000 < (st.used_nonces ++ [nn0]).length := by
        rw [List.length_append]
        simp only [List.length_cons, List.length_nil]
        omega
      refine ⟨?_, ?_⟩
      · rw [heq, if_neg hnotrim]
      · intro cmd2 now2 hn2
        have hmem2 : nn0 ∈ (verify_hmac hf trim cfg st now cmd).2.used_nonces := by
          rw [heq]
          simp only [if_neg hnotrim]
          exact List.mem_append_right _ (List.mem_singleton.mpr rfl)
        have := verify_hmac_reject_reused hf trim cfg
          (verify_hmac hf trim cfg st now cmd).2 now2 cmd2 nn0 hen hn2 hmem2
        rw [this]

/-- Witness for C3: a concrete well-signed command is accepted, its
nonce lands in the ledger, and an immediate replay is rejected. -/
theorem claim_C3_witness :
    ((⟨some "s", true, 1000000, true⟩ : BLEConfig).hmac_enabled = true) ∧
    ((verify_hmac (fun _ _ => "tag") (fun l => l.take 500)
        ⟨some "s", true, 1000000, true⟩ ⟨none, [], []⟩ 5
        [("command", JVal.jstr "DEACTIVATE"), ("employee_id", JVal.jstr "EMP001"),
         ("nonce", JVal.jstr "5_ab"), ("hmac", JVal.jstr "tag")]).1 = true) ∧
    ((verify_hmac (fun _ _ => "tag") (fun l => l.take 500)
        ⟨some "s", true, 1000000, true⟩ ⟨none, [], []⟩ 5
        [("command", JVal.jstr "DEACTIVATE"), ("employee_id", JVal.jstr "EMP001"),
         ("nonce", JVal.jstr "5_ab"), ("hmac", JVal.jstr "tag")]).2.used_nonces = ["5_ab"]) ∧
    ((verify_hmac (fun _ _ => "tag") (fun l => l.take 500)
        ⟨some "s", true, 1000000, true⟩
        (verify_hmac (fun _ _ => "tag") (fun l => l.take 500)
          ⟨some "s", true, 1000000, true⟩ ⟨none, [], []⟩ 5
          [("command", JVal.jstr "DEACTIVATE"), ("employee_id", JVal.jstr "EMP001"),
           ("nonce", JVal.jstr "5_ab"), ("hmac", JVal.jstr "tag")]).2 6
        [("command", JVal.jstr "DEACTIVATE"), ("employee_id", JVal.jstr "EMP001"),
         ("nonce", JVal.jstr "5_ab"), ("hmac", JVal.jstr "tag")]).1 = false) := by
  have hn : getJ [("command", JVal.jstr "DEACTIVATE"), ("employee_id", JVal.jstr "EMP001"),
      ("nonce", JVal.jstr "5_ab"), ("hmac", JVal.jstr "tag")] "nonce" =
      some (.jstr "5_ab") := by decide
  have hsg : getJ [("command", JVal.jstr "DEACTIVATE"), ("employee_id", JVal.jstr "EMP001"),
      ("nonce", JVal.jstr "5_ab"), ("hmac", JVal.jstr "tag")] "hmac" =
      some (.jstr "tag") := by decide
  have hts : nonceSeconds "5_ab" = some 5 := by decide
  have h := claim_C3 (fun _ _ => "tag") (fun l => l.take 500)
    ⟨some "s", true, 1000000, true⟩ ⟨none, [], []⟩ 5
    [("command", JVal.jstr "DEACTIVATE"), ("employee_id", JVal.jstr "EMP001"),
     ("nonce", JVal.jstr "5_ab"), ("hmac", JVal.jstr "tag")] rfl
  have hacc : (verify_hmac (fun _ _ => "tag") (fun l => l.take 500)
      ⟨some "s", true, 1000000, true⟩ ⟨none, [], []⟩ 5
      [("command", JVal.jstr "DEACTIVATE"), ("employee_id", JVal.jstr "EMP001"),
       ("nonce", JVal.jstr "5_ab"), ("hmac", JVal.jstr "tag")]).1 = true := by
    refine h.1.mpr ⟨"s", "5_ab", 5, rfl, by decide, hn, by decide, by simp, hts,
      by decide, hsg, by decide⟩
  have hrest := h.2.2.2 (by simp) "5_ab" hn hacc
  refine ⟨rfl, hacc, ?_, ?_⟩
  · rw [hrest.1]
    rfl
  · exact hrest.2 _ 6 hn

/-- Claim C9 (amended, bound part): as long as the trimming step cannot
return more than 1000 entries (the source keeps a 500-element slice),
every call to verify_hmac leaves the ledger with at most 1000 entries. -/
theorem claim_C9 (hf : String → List (String × JVal) → String)
    (trim : List String → List String) (cfg : BLEConfig) (st : ProtoState)
    (now : ℤ) (cmd : Command)
    (htrim : ∀ l : List String, (trim l).length ≤ 1000)
    (hbound : st.used_nonces.length ≤ 1000) :
    (verify_hmac hf trim cfg st now cmd).2.used_nonces.length ≤ 1000 := by
  cases hen : cfg.hmac_enabled with
  | false =>
    have hv : verify_hmac hf trim cfg st now cmd = (true, st) := by
      unfold verify_hmac
      rw [hen]
      simp
    rw [hv]
    exact hbound
  | true =>
    rcases verify_hmac_cases hf trim cfg st now cmd hen with
      ⟨heq, -⟩ | ⟨secret, nn, ts, -, -, -, -, -, -, -, -, -, heq⟩
    · rw [heq]
      exact hbound
    · rw [heq]
      dsimp only
      split
      · exact htrim _
      · rename_i hnot
        rw [List.length_append]
        rw [List.length_append] at hnot
        omega

/-- Witness for C9: the bound hypotheses hold for the 500-element slice
trim of the source and a small concrete state. -/
theorem claim_C9_witness :
    (∀ l : List String, ((fun l : List String => l.take 500) l).length ≤ 1000) ∧
    ((⟨none, [], ["a"]⟩ : ProtoState).used_nonces.length ≤ 1000) ∧
    ((verify_hmac (fun _ _ => "t") (fun l => l.take 500)
        ⟨some "s", true, 1000000, true⟩ ⟨none, [], ["a"]⟩ 0
        [("nonce", JVal.jstr "0_b"), ("hmac", JVal.jstr "t")]).2.used_nonces.length ≤ 1000) := by
  have htrim : ∀ l : List String, ((fun l : List String => l.take 500) l).length ≤ 1000 := by
    intro l
    simp only [List.length_take]
    omega
  refine ⟨htrim, by simp, ?_⟩
  exact claim_C9 (fun _ _ => "t") (fun l => l.take 500)
    ⟨some "s", true, 1000000, true⟩ ⟨none, [], ["a"]⟩ 0
    [("nonce", JVal.jstr "0_b"), ("hmac", JVal.jstr "t")] htrim (by simp)

/-- The new nonce of the counterexample is not among the thousand old
ones (all of which are runs of the letter a). -/
theorem newNonce_not_mem : "0_b" ∉ nonces1000 := by
  intro h
  obtain ⟨n, hn, heq⟩ := List.mem_map.mp h
  have hdata : List.replicate (n + 1) 'a' = "0_b".data := by
    have := congrArg String.data heq
    simpa using this
  have hmem : '0' ∈ List.replicate (n + 1) 'a' := by
    rw [hdata]
    decide
  have := List.eq_of_mem_replicate hmem
  exact absurd this (by decide)

/-- Counterexample to C9 as stated (oldest-first eviction): CPython
iterates a set in unspecified (hash-randomized) order, so the slice
list(used_nonces)[-500:] may retain any 500 of the 1001 entries; with
the admissible trim that keeps the first 500 of the model order, a call
that accepts a fresh nonce onto a full ledger evicts that newest nonce
while the oldest accepted nonce is retained. -/
theorem claim_C9_cex :
    ((verify_hmac (fun _ _ => "t") (fun l => l.take 500)
        ⟨some "s", true, 1000000, true⟩ fullLedgerState 0
        [("nonce", JVal.jstr "0_b"), ("hmac", JVal.jstr "t")]).1 = true) ∧
    ((fun l : List String => l.take 500)
        (fullLedgerState.used_nonces ++ ["0_b"])).length = 500 ∧
    ("0_b" ∉ (verify_hmac (fun _ _ => "t") (fun l => l.take 500)
        ⟨some "s", true, 1000000, true⟩ fullLedgerState 0
        [("nonce", JVal.jstr "0_b"), ("hmac", JVal.jstr "t")]).2.used_nonces) ∧
    (fullLedgerState.used_nonces.head? = some "a") ∧
    ("a" ∈ (verify_hmac (fun _ _ => "t") (fun l => l.take 500)
        ⟨some "s", true, 1000000, true⟩ fullLedgerState 0
        [("nonce", JVal.jstr "0_b"), ("hmac", JVal.jstr "t")]).2.used_nonces) := by
  have hflu : fullLedgerState.used_nonces = nonces1000 := by
    simp only [fullLedgerState]
  have hlen : nonces1000.length = 1000 := by
    simp [nonces1000]
  have hn : getJ [("nonce", JVal.jstr "0_b"), ("hmac", JVal.jstr "t")] "nonce" =
      some (.jstr "0_b") := by decide
  have hsg : getJ [("nonce", JVal.jstr "0_b"), ("hmac", JVal.jstr "t")] "hmac" =
      some (.jstr "t") := by decide
  have hhead : nonces1000.head? = some "a" := by
    rw [nonces1000, List.head?_map]
    have h1 : (List.range 1000).head? = some 0 := by
      rw [List.head?_eq_getElem?, List.getElem?_range (by omega)]
    rw [h1]
    decide
  have hmin : (500 : ℕ) ⊓ 1000 = 500 := by omega
  have htake500 : nonces1000.take 500 = (List.range 500).map
      (fun n => String.mk (List.replicate (n + 1) 'a')) := by
    rw [nonces1000, ← List.map_take, List.take_range, hmin]
  rcases verify_hmac_cases (fun _ _ => "t") (fun l => l.take 500)
      ⟨some "s", true, 1000000, true⟩ fullLedgerState 0
      [("nonce", JVal.jstr "0_b"), ("hmac", JVal.jstr "t")] rfl with
    ⟨-, hnot⟩ | ⟨secret, nn, ts, -, -, hn0, -, -, -, -, -, -, heq⟩
  · exfalso
    refine hnot ⟨"s", "0_b", 0, rfl, by decide, hn, by decide, ?_, by decide,
      by decide, hsg, by decide⟩
    rw [hflu]
    exact newNonce_not_mem
  · rw [hn] at hn0
    injection hn0 with hn0
    injection hn0 with hn0
    subst hn0
    have hcut : (1000 : ℕ) < (fullLedgerState.used_nonces ++ ["0_b"]).length := by
      simp only [List.length_append, hflu, hlen, List.length_cons, List.length_nil]
      omega
    have htake : (fullLedgerState.used_nonces ++ ["0_b"]).take 500 = nonces1000.take 500 := by
      rw [hflu]
      refine List.take_append_of_le_length ?_
      omega
    have hused : (verify_hmac (fun _ _ => "t") (fun l => l.take 500)
        ⟨some "s", true, 1000000, true⟩ fullLedgerState 0
        [("nonce", JVal.jstr "0_b"), ("hmac", JVal.jstr "t")]).2.used_nonces =
        nonces1000.take 500 := by
      rw [heq]
      dsimp only
      rw [if_pos hcut, htake]
    refine ⟨by rw [heq], ?_, ?_, by rw [hflu]; exact hhead, ?_⟩
    · simp only [List.length_take, List.length_append, hflu, hlen,
        List.length_cons, List.length_nil]
      omega
    · rw [hused]
      intro hmem
      exact newNonce_not_mem (List.take_subset 500 nonces1000 hmem)
    · rw [hused, htake500]
      exact List.mem_map.mpr ⟨0, by simp, by decide⟩

/-- Claim C10: with hmac_enabled false, verify_hmac accepts every
command unchanged (no nonce ledger read or write, no nonce or hmac
field needed), so the only authentication gate left on a mutating
command such as DEACTIVATE is the admin-mode flag: admin off gives the
admin error, admin on routes straight to the employee_id check and the
callback, never an HMAC failure. -/
theorem claim_C10 (hf : String → List (String × JVal) → String)
    (trim : List String → List String) (cfg : BLEConfig) (st : ProtoState)
    (now : ℤ) (cmd : Command) (cb : JVal → Bool)
    (hdis : cfg.hmac_enabled = false) :
    (verify_hmac hf trim cfg st now cmd = (true, st)) ∧
    (cfg.admin_mode_enabled = false →
      handle_deactivate hf trim cfg st now cmd cb = (.err .adminNotEnabled, st)) ∧
    (cfg.admin_mode_enabled = true →
      handle_deactivate hf trim cfg st now cmd cb =
        (if jtruthy (getJ cmd "employee_id") then
           (if cb ((getJ cmd "employee_id").getD .jnull) then
              Resp.ok (.employeeDeactivatedMsg ((getJ cmd "employee_id").getD .jnull))
            else Resp.err .employeeNotFound)
         else Resp.err .missingEmployeeId, st)) := by
  have hv : verify_hmac hf trim cfg st now cmd = (true, st) := by
    unfold verify_hmac
    rw [hdis]
    simp
  refine ⟨hv, ?_, ?_⟩
  · intro hadm
    unfold handle_deactivate check_admin_permission
    rw [hadm]
    simp
  · intro hadm
    unfold handle_deactivate check_admin_permission
    rw [hadm, hv]
    simp only [not_true, if_false, Bool.true_eq_false, ite_false, not_false_iff, if_true]
    by_cases hj : jtruthy (getJ cmd "employee_id") = true
    · rw [if_neg (by simp [hj]), if_pos hj]
      by_cases hc : cb ((getJ cmd "employee_id").getD .jnull) = true
      · rw [if_pos hc, if_pos hc]
      · rw [if_neg hc, if_neg hc]
    · rw [if_pos (by simpa using hj), if_neg (by simpa using hj)]

/-- Witness for C10: with HMAC disabled and no secret configured, a
DEACTIVATE command with neither nonce nor hmac field passes
verification untouched and succeeds on the admin flag alone. -/
theorem claim_C10_witness :
    ((⟨none, false, 1000000, true⟩ : BLEConfig).hmac_enabled = false) ∧
    (verify_hmac (fun _ _ => "t") (fun l => l.take 500)
        ⟨none, false, 1000000, true⟩ ⟨none, [], []⟩ 0
        [("command", JVal.jstr "DEACTIVATE"), ("employee_id", JVal.jstr "EMP001")] =
      (true, ⟨none, [], []⟩)) ∧
    (handle_deactivate (fun _ _ => "t") (fun l => l.take 500)
        ⟨none, false, 1000000, true⟩ ⟨none, [], []⟩ 0
        [("command", JVal.jstr "DEACTIVATE"), ("employee_id", JVal.jstr "EMP001")]
        (fun _ => true) =
      (.ok (.employeeDeactivatedMsg (JVal.jstr "EMP001")), ⟨none, [], []⟩)) := by
  have h := claim_C10 (fun _ _ => "t") (fun l => l.take 500)
    ⟨none, false, 1000000, true⟩ ⟨none, [], []⟩ 0
    [("command", JVal.jstr "DEACTIVATE"), ("employee_id", JVal.jstr "EMP001")]
    (fun _ => true) rfl
  refine ⟨rfl, h.1, ?_⟩
  rw [h.2.2 rfl]
  decide

/-- Claim C4 (code bug): deleting a present employee returns true and
removes the employee row, but the embeddings rows of that employee
survive, because sqlite leaves foreign-key enforcement (and hence the
declared ON DELETE CASCADE) off and _init_db never issues
PRAGMA foreign_keys=ON; an absent id returns false and changes
nothing. -/
theorem claim_C4 :
    ((delete_employee
        ⟨[⟨"EMP001", none, 0, 100, true, 0, 0⟩], [⟨1, "EMP001", [], none, 0⟩]⟩
        "EMP001").1 = true) ∧
    ((delete_employee
        ⟨[⟨"EMP001", none, 0, 100, true, 0, 0⟩], [⟨1, "EMP001", [], none, 0⟩]⟩
        "EMP001").2.employees = []) ∧
    ((delete_employee
        ⟨[⟨"EMP001", none, 0, 100, true, 0, 0⟩], [⟨1, "EMP001", [], none, 0⟩]⟩
        "EMP001").2.embeddings = [⟨1, "EMP001", [], none, 0⟩]) ∧
    (∃ r ∈ (delete_employee
        ⟨[⟨"EMP001", none, 0, 100, true, 0, 0⟩], [⟨1, "EMP001", [], none, 0⟩]⟩
        "EMP001").2.embeddings, r.employee_id = "EMP001") ∧
    (delete_employee
        ⟨[⟨"EMP001", none, 0, 100, true, 0, 0⟩], [⟨1, "EMP001", [], none, 0⟩]⟩
        "ABSENT" =
      (false, ⟨[⟨"EMP001", none, 0, 100, true, 0, 0⟩], [⟨1, "EMP001", [], none, 0⟩]⟩)) := by
  refine ⟨by decide, by decide, by decide, ?_, by decide⟩
  exact ⟨⟨1, "EMP001", [], none, 0⟩, by decide, rfl⟩

/-- Counterexample to C5 as stated: an upsert whose access_end equals
its access_start (end ≤ start) does not fail and does not leave the
table unchanged; the row is stored with the inverted window. -/
theorem claim_C5_cex :
    ((upsert_employee ⟨[], []⟩ 5 "EMP001" 10 10 none true).employees ≠ []) ∧
    (get_employee (upsert_employee ⟨[], []⟩ 5 "EMP001" 10 10 none true) "EMP001" =
      some ⟨"EMP001", none, 10, 10, true, 5, 5⟩) ∧
    ((upsert_employee ⟨[], []⟩ 5 "EMP001" 10 10 none true).employees ≠
      (⟨[], []⟩ : DBState).employees) ∧
    ((10 : ℚ) ≤ 10) := by
  refine ⟨by decide, by decide, by decide, le_refl 10⟩

/-- find? after the conditional update of a present key returns the
updated row. -/
theorem find?_map_upd (l : List EmployeeRow) (employee_id : String)
    (now s e : ℚ) (d : Option String) (a : Bool)
    (hany : l.any (fun r => r.employee_id = employee_id) = true) :
    ∃ cr, (l.map (fun r =>
        if r.employee_id = employee_id then
          { r with display_name := d, access_start := s, access_end := e,
                   is_active := a, updated_at := now }
        else r)).find? (fun r => r.employee_id = employee_id) =
      some ⟨employee_id, d, s, e, a, cr, now⟩ := by
  induction l with
  | nil => simp at hany
  | cons r rest ih =>
    by_cases hr : r.employee_id = employee_id
    · refine ⟨r.created_at, ?_⟩
      rw [List.map_cons, if_pos hr, List.find?_cons_of_pos _ (by simpa using hr)]
      simp [hr]
    · have hany2 : rest.any (fun r => r.employee_id = employee_id) = true := by
        simpa [hr] using hany
      obtain ⟨cr, hcr⟩ := ih hany2
      refine ⟨cr, ?_⟩
      rw [List.map_cons, if_neg hr, List.find?_cons_of_neg _ (by simpa using hr)]
      exact hcr

/-- find? on an append sees the appended row when the prefix misses. -/
theorem find?_append_row (l : List EmployeeRow) (employee_id : String)
    (row : EmployeeRow)
    (hnone : l.any (fun r => r.employee_id = employee_id) = false)
    (hrow : row.employee_id = employee_id) :
    (l ++ [row]).find? (fun r => r.employee_id = employee_id) = some row := by
  induction l with
  | nil =>
    simp only [List.nil_append]
    rw [List.find?_cons_of_pos _ (by simpa using hrow)]
  | cons r rest ih =>
    simp only [List.any_cons, Bool.or_eq_false_iff] at hnone
    rw [List.cons_append, List.find?_cons_of_neg _ (by simpa using hnone.1)]
    exact ih hnone.2

/-- Claim C5 (amended): upsert_employee performs no validation of the
access window at all; for every input, including access_end ≤
access_start, it writes the row, and a subsequent get_employee returns
exactly the stored (possibly inverted) window. -/
theorem claim_C5 (st : DBState) (now : ℚ) (employee_id : String)
    (access_start access_end : ℚ) (display_name : Option String)
    (is_active : Bool) :
    ∃ cr, get_employee
        (upsert_employee st now employee_id access_start access_end
          display_name is_active) employee_id =
      some ⟨employee_id, display_name, access_start, access_end, is_active, cr, now⟩ := by
  unfold upsert_employee get_employee
  by_cases hany : st.employees.any (fun r => r.employee_id = employee_id) = true
  · rw [if_pos hany]
    exact find?_map_upd st.employees employee_id now access_start access_end
      display_name is_active hany
  · rw [if_neg hany]
    refine ⟨now, ?_⟩
    exact find?_append_row st.employees employee_id _
      (Bool.eq_false_iff.mpr hany) rfl

/-- Claim C6 (code bug): the dispatcher of the real BLE server routes
BEGIN_UPSERT, PHOTO_CHUNK, END_UPSERT, UPDATE_PERIOD, DEACTIVATE and
GET_STATUS to their handlers, but has no arm for DELETE,
LIST_EMPLOYEES or GET_AUDIT_LOGS: those three protocol commands fall
through to the unknown-command error even though their handlers exist
in BLEProtocol (and main.py even tries to install their callbacks). -/
theorem claim_C6 (hf : String → List (String × JVal) → String)
    (trim : List String → List String) (b64 : String → Option (List ℕ))
    (sha : List ℕ → String) (cfg : BLEConfig)
    (endCb : Session → Resp) (updCb : JVal → JVal → JVal → Bool)
    (deaCb : JVal → Bool) (statusData : List (String × JVal))
    (st : ProtoState) (now : ℤ) (cmd : Command) :
    (process_command hf trim b64 sha cfg endCb updCb deaCb statusData st now
        (some (.jstr "BEGIN_UPSERT")) cmd =
      (some (handle_begin_upsert hf trim cfg st now cmd).1,
        (handle_begin_upsert hf trim cfg st now cmd).2)) ∧
    (process_command hf trim b64 sha cfg endCb updCb deaCb statusData st now
        (some (.jstr "PHOTO_CHUNK")) cmd = handle_photo_chunk b64 sha cfg st cmd) ∧
    (process_command hf trim b64 sha cfg endCb updCb deaCb statusData st now
        (some (.jstr "END_UPSERT")) cmd =
      (some (handle_end_upsert endCb st cmd).1, (handle_end_upsert endCb st cmd).2)) ∧
    (process_command hf trim b64 sha cfg endCb updCb deaCb statusData st now
        (some (.jstr "UPDATE_PERIOD")) cmd =
      (some (handle_update_period hf trim cfg st now cmd updCb).1,
        (handle_update_period hf trim cfg st now cmd updCb).2)) ∧
    (process_command hf trim b64 sha cfg endCb updCb deaCb statusData st now
        (some (.jstr "DEACTIVATE")) cmd =
      (some (handle_deactivate hf trim cfg st now cmd deaCb).1,
        (handle_deactivate hf trim cfg st now cmd deaCb).2)) ∧
    (process_command hf trim b64 sha cfg endCb updCb deaCb statusData st now
        (some (.jstr "GET_STATUS")) cmd = (some (handle_get_status statusData), st)) ∧
    (process_command hf trim b64 sha cfg endCb updCb deaCb statusData st now
        (some (.jstr "DELETE")) cmd =
      (some (.err (.unknownCommand (some (.jstr "DELETE")))), st)) ∧
    (process_command hf trim b64 sha cfg endCb updCb deaCb statusData st now
        (some (.jstr "LIST_EMPLOYEES")) cmd =
      (some (.err (.unknownCommand (some (.jstr "LIST_EMPLOYEES")))), st)) ∧
    (process_command hf trim b64 sha cfg endCb updCb deaCb statusData st now
        (some (.jstr "GET_AUDIT_LOGS")) cmd =
      (some (.err (.unknownCommand (some (.jstr "GET_AUDIT_LOGS")))), st)) := by
  refine ⟨?_, ?_, ?_, ?_, ?_, ?_, ?_, ?_, ?_⟩ <;>
    simp [process_command]

/-- Claim C7: a final photo chunk whose sha256 does not match the
digest of the reassembled bytes yields the hash-mismatch error and
clears only the photo accumulator; the session (target fields, the
accepted photos, the received count) is untouched, and an END_UPSERT
issued before the retry is rejected citing the expected versus
received photo counts. -/
theorem claim_C7 (b64 : String → Option (List ℕ)) (sha : List ℕ → String)
    (cfg : BLEConfig) (st : ProtoState) (cmd cmd2 : Command)
    (cb : Session → Resp) (sess : Session) (ds : String) (chunk : List ℕ)
    (h : String)
    (hs : st.current_session = some sess)
    (hd : getJ cmd "data" = some (.jstr ds))
    (hds : ds ≠ "")
    (hb : b64 ds = some chunk)
    (hsize : (st.photo_buffer.length : ℤ) + chunk.length ≤ cfg.max_photo_size)
    (hlast : jtruthy (getJ cmd "is_last") = true)
    (hsha : getJ cmd "sha256" = some (.jstr h))
    (hhne : h ≠ "")
    (hmis : h ≠ sha (st.photo_buffer ++ chunk)) :
    handle_photo_chunk b64 sha cfg st cmd =
      (some (.err .photoHashMismatch), { st with photo_buffer := [] }) ∧
    ({ st with photo_buffer := [] } : ProtoState).current_session = some sess ∧
    (sess.photos_received ≠ sess.num_photos →
      handle_end_upsert cb { st with photo_buffer := [] } cmd2 =
        (.err (.expectedPhotos sess.num_photos sess.photos_received),
          { st with photo_buffer := [] })) := by
  refine ⟨?_, by simpa using hs, ?_⟩
  · unfold handle_photo_chunk
    rw [hs]
    dsimp only
    rw [hd]
    have htr : jtruthy (some (JVal.jstr ds)) = true := by simp [jtruthy, hds]
    rw [if_neg (by simp [htr])]
    dsimp only
    rw [hb]
    dsimp only
    rw [if_neg (not_lt.mpr hsize), if_pos hlast, hsha]
    rw [if_pos ?_]
    refine ⟨by simp [jtruthy, hhne], ?_⟩
    intro hcontra
    injection hcontra with hcontra
    injection hcontra with hcontra
    exact hmis hcontra
  · intro hcount
    unfold handle_end_upsert
    have : ({ st with photo_buffer := [] } : ProtoState).current_session = some sess := by
      simpa using hs
    rw [this]
    dsimp only
    rw [if_pos hcount]

/-- Witness for C7: a concrete mid-session state with one pending
photo, a final chunk carrying a wrong digest, and the END_UPSERT that
follows. -/
theorem claim_C7_witness :
    (handle_photo_chunk (fun s => if s = "QQ==" then some [65] else none)
        (fun _ => "00") ⟨none, false, 100, true⟩
        ⟨some ⟨.jstr "EMP001", none, .jstr "2025", .jstr "2026", 1, 0, []⟩, [1, 2], []⟩
        [("data", JVal.jstr "QQ=="), ("is_last", JVal.jbool true),
         ("sha256", JVal.jstr "ff")] =
      (some (.err .photoHashMismatch),
        ⟨some ⟨.jstr "EMP001", none, .jstr "2025", .jstr "2026", 1, 0, []⟩, [], []⟩)) ∧
    (handle_end_upsert (fun _ => Resp.ok (.sessionStarted .jnull))
        ⟨some ⟨.jstr "EMP001", none, .jstr "2025", .jstr "2026", 1, 0, []⟩, [], []⟩
        [] =
      (.err (.expectedPhotos 1 0),
        ⟨some ⟨.jstr "EMP001", none, .jstr "2025", .jstr "2026", 1, 0, []⟩, [], []⟩)) := by
  have h := claim_C7 (fun s => if s = "QQ==" then some [65] else none)
    (fun _ => "00") ⟨none, false, 100, true⟩
    ⟨some ⟨.jstr "EMP001", none, .jstr "2025", .jstr "2026", 1, 0, []⟩, [1, 2], []⟩
    [("data", JVal.jstr "QQ=="), ("is_last", JVal.jbool true),
     ("sha256", JVal.jstr "ff")] []
    (fun _ => Resp.ok (.sessionStarted .jnull))
    ⟨.jstr "EMP001", none, .jstr "2025", .jstr "2026", 1, 0, []⟩
    "QQ==" [65] "ff"
    rfl (by decide) (by decide) (by decide) (by decide) (by decide) (by decide)
    (by decide) (by decide)
  exact ⟨h.1, h.2.2 (by decide)⟩

/-- The fragmenter emits exactly the ceiling of length/179 frames. -/
theorem fragmentMsg_length (data : List ℕ) :
    (fragmentMsg data).length = (data.length + 178) / 179 := by
  induction data using fragmentMsg.induct with
  | case1 =>
    rw [fragmentMsg]
    simp
  | case2 data hne hle =>
    rw [fragmentMsg, if_neg hne, if_pos hle]
    have h1 : 1 ≤ data.length := by
      rcases Nat.eq_zero_or_pos data.length with h | h
      · exact absurd (List.eq_nil_of_length_eq_zero h) hne
      · exact h
    simp only [List.length_cons, List.length_nil]
    omega
  | case3 data hne hgt ih =>
    rw [fragmentMsg, if_neg hne, if_neg hgt]
    simp only [List.length_cons, ih, List.length_drop]
    omega

/-- Every emitted frame is at most 180 bytes. -/
theorem fragmentMsg_size (data : List ℕ) :
    ∀ f ∈ fragmentMsg data, f.length ≤ 180 := by
  induction data using fragmentMsg.induct with
  | case1 =>
    rw [fragmentMsg]
    simp
  | case2 data hne hle =>
    rw [fragmentMsg, if_neg hne, if_pos hle]
    intro f hf
    rw [List.mem_singleton.mp hf]
    simp only [List.length_cons]
    omega
  | case3 data hne hgt ih =>
    rw [fragmentMsg, if_neg hne, if_neg hgt]
    intro f hf
    rcases List.mem_cons.mp hf with h | h
    · subst h
      simp only [List.length_cons, List.length_take]
      omega
    · exact ih f h

/-- The flag bytes: every frame except the last starts with 0x01, the
last with 0x00. -/
theorem fragmentMsg_flags (data : List ℕ) (hne : data ≠ []) :
    (fragmentMsg data).map List.head? =
      List.replicate ((fragmentMsg data).length - 1) (some 1) ++ [some 0] := by
  induction data using fragmentMsg.induct with
  | case1 => exact absurd rfl hne
  | case2 data hne2 hle =>
    rw [fragmentMsg, if_neg hne2, if_pos hle]
    simp
  | case3 data hne2 hgt ih =>
    have hdrop : data.drop 179 ≠ [] := by
      intro h
      have := congrArg List.length h
      simp only [List.length_drop, List.length_nil] at this
      omega
    rw [fragmentMsg, if_neg hne2, if_neg hgt]
    simp only [List.map_cons, List.head?_cons, List.length_cons]
    rw [ih hdrop]
    have hlen1 : 1 ≤ (fragmentMsg (data.drop 179)).length := by
      rw [fragmentMsg_length]
      simp only [List.length_drop]
      omega
    have : (fragmentMsg (data.drop 179)).length + 1 - 1 =
        ((fragmentMsg (data.drop 179)).length - 1) + 1 := by omega
    rw [this, List.replicate_succ, List.cons_append]

/-- Concatenating the per-frame payloads (the bytes after the flag)
reproduces the original message. -/
theorem fragmentMsg_concat (data : List ℕ) :
    ((fragmentMsg data).map List.tail).flatten = data := by
  induction data using fragmentMsg.induct with
  | case1 =>
    rw [fragmentMsg]
    simp
  | case2 data hne hle =>
    rw [fragmentMsg, if_neg hne, if_pos hle]
    simp
  | case3 data hne hgt ih =>
    rw [fragmentMsg, if_neg hne, if_neg hgt]
    simp only [List.map_cons, List.tail_cons, List.flatten_cons, ih]
    exact List.take_append_drop 179 data

/-- Claim C8: a message longer than the 180-byte budget goes through
the fragmenter, producing exactly ceil(B/179) frames of at most 180
bytes, all but the last flagged 0x01 and the last flagged 0x00, whose
payload concatenation reproduces the message; a message of at most 180
bytes is sent as a single bare frame without the envelope. -/
theorem claim_C8 (message : List ℕ) :
    (180 < message.length →
      send_notification message = fragmentMsg message ∧
      (fragmentMsg message).length = (message.length + 178) / 179 ∧
      (∀ f ∈ fragmentMsg message, f.length ≤ 180) ∧
      (fragmentMsg message).map List.head? =
        List.replicate ((fragmentMsg message).length - 1) (some 1) ++ [some 0] ∧
      ((fragmentMsg message).map List.tail).flatten = message) ∧
    (message.length ≤ 180 → send_notification message = [message]) := by
  constructor
  · intro hlen
    have hne : message ≠ [] := by
      intro h
      rw [h] at hlen
      simp at hlen
    refine ⟨?_, fragmentMsg_length message, fragmentMsg_size message,
      fragmentMsg_flags message hne, fragmentMsg_concat message⟩
    unfold send_notification
    rw [if_neg (by omega)]
  · intro hlen
    unfold send_notification
    rw [if_pos hlen]

/-- Witness for C8: a 181-byte message is sent as two frames, 0x01
then 0x00, whose payloads concatenate back to the message; a 3-byte
message goes out bare. -/
theorem claim_C8_witness :
    (180 < (List.replicate 181 7).length) ∧
    (send_notification (List.replicate 181 7) = fragmentMsg (List.replicate 181 7)) ∧
    ((fragmentMsg (List.replicate 181 7)).length = 2) ∧
    (((fragmentMsg (List.replicate 181 7)).map List.tail).flatten =
      List.replicate 181 7) ∧
    (fragmentMsg (List.replicate 181 7) =
      [1 :: List.replicate 179 7, 0 :: List.replicate 2 7]) ∧
    (send_notification [1, 2, 3] = [[1, 2, 3]]) := by
  have hlen : 180 < (List.replicate 181 (7:ℕ)).length := by
    simp only [List.length_replicate]
    omega
  have h := (claim_C8 (List.replicate 181 7)).1 hlen
  have h2 := (claim_C8 [1, 2, 3]).2 (by simp only [List.length_cons, List.length_nil]; omega)
  have hne : List.replicate 181 (7:ℕ) ≠ [] := by
    simp only [ne_eq, List.replicate_eq_nil_iff]
    omega
  have hgt : ¬ (List.replicate 181 (7:ℕ)).length ≤ 179 := by
    simp only [List.length_replicate]
    omega
  have ht : (List.replicate 181 (7:ℕ)).take 179 = List.replicate 179 7 := by
    rw [List.take_replicate]
    norm_num
  have hd : (List.replicate 181 (7:ℕ)).drop 179 = List.replicate 2 7 := by
    rw [List.drop_replicate]
  have hne2 : List.replicate 2 (7:ℕ) ≠ [] := by
    simp only [ne_eq, List.replicate_eq_nil_iff]
    omega
  have hle2 : (List.replicate 2 (7:ℕ)).length ≤ 179 := by
    simp only [List.length_replicate]
    omega
  refine ⟨hlen, h.1, ?_, h.2.2.2.2, ?_, h2⟩
  · rw [h.2.1]
    simp only [List.length_replicate]
  · rw [fragmentMsg, if_neg hne, if_neg hgt, ht, hd]
    rw [fragmentMsg, if_neg hne2, if_pos hle2]
